import Mathlib

set_option maxRecDepth 4000

/-!
Verification of the geometric route-matching and marker-animation engine of a
live bus-map viewer.  The definitions below are a shallow embedding of the
JavaScript source: the polyline codec and next-stop resolver
(`decodePolyline`, `getDistanceAlongRoute`, `calculateNextStop`) and the
marker reconciliation layer (`sync`, `onIdle`, `tick`).

JavaScript numbers are modelled as follows: the polyline codec performs
bitwise operations, which JavaScript defines on 32-bit two's-complement
integers; these are embedded as `Int` with explicit reduction modulo `2^32`
(`toInt32` and friends).  All other numeric values are embedded as real
numbers.
-/

/-- `ToUint32` of an integer: reduce modulo `2^32` into `[0, 2^32)`. -/
def toUInt32 (n : Int) : Nat := (n.emod 4294967296).toNat

/-- `ToInt32` of an integer: reduce modulo `2^32` into `[-2^31, 2^31)`. -/
def toInt32 (n : Int) : Int :=
  let m := n.emod 4294967296
  if m < 2147483648 then m else m - 4294967296

/-- JavaScript `a & b` (32-bit bitwise and). -/
def jsAnd (a b : Int) : Int := toInt32 (Int.ofNat (Nat.land (toUInt32 a) (toUInt32 b)))

/-- JavaScript `a | b` (32-bit bitwise or). -/
def jsOr (a b : Int) : Int := toInt32 (Int.ofNat (Nat.lor (toUInt32 a) (toUInt32 b)))

/-- JavaScript `a << s` (32-bit shift left; shift count taken mod 32). -/
def jsShl (a : Int) (s : Nat) : Int := toInt32 (Int.ofNat ((toUInt32 a) <<< (s % 32)))

/-- JavaScript `a >> s` (32-bit arithmetic shift right = floor division). -/
def jsShrA (a : Int) (s : Nat) : Int := Int.fdiv (toInt32 a) (2 ^ (s % 32))

/-- JavaScript `~a` (32-bit bitwise complement). -/
def jsNot (a : Int) : Int := toInt32 (-1 - toInt32 a)

/-- The UTF-16 code units of the encoded string, as integers
(`charCodeAt` results). -/
def codesOf (e : String) : List Int := e.data.map fun c => (c.toNat : Int)

/-- One inner `do { byte = encoded.charCodeAt(index++) - 63;
result |= (byte & 0x1f) << shift; shift += 5 } while (byte >= 0x20)` loop of
`decodePolyline`, reading from the remaining code-unit list.  Returns the
accumulated `result` and the number of code units consumed.  When the index
runs past the end of the string, `charCodeAt` yields `NaN`; then
`(byte & 0x1f)` is `0` and `byte >= 0x20` is false, which is what the `[]`
branch encodes. -/
def readVarint : List Int → Nat → Int → Int × Nat
  | [], _, result => (jsOr result 0, 1)
  | c :: rest, shift, result =>
    let byte := c - 63
    let r2 := jsOr result (jsShl (jsAnd byte 31) shift)
    if 32 ≤ byte then
      let p := readVarint rest (shift + 5) r2
      (p.1, p.2 + 1)
    else
      (r2, 1)

/-- Each branch of `readVarint` consumes at least one code unit. -/
theorem readVarint_consumed_pos (l : List Int) (shift : Nat) (result : Int) :
    1 ≤ (readVarint l shift result).2 := by
  cases l with
  | nil => simp [readVarint]
  | cons c rest =>
    simp only [readVarint]
    split <;> simp

/-- The outer `while (index < encoded.length)` loop of `decodePolyline`,
reading the remaining code-unit list and accumulating `lat`/`lng`.
The recursion consumes at least two code units per iteration, so the
explicit fuel parameter never runs out when started at the list length;
it only makes the recursion structural. -/
def decodeLoop : Nat → List Int → Int → Int → List (Int × Int)
  | 0, _, _, _ => []
  | _ + 1, [], _, _ => []
  | fuel + 1, l@(_ :: _), lat, lng =>
    let p1 := readVarint l 0 0
    let dlat := if jsAnd p1.1 1 ≠ 0 then jsNot (jsShrA p1.1 1) else jsShrA p1.1 1
    let lat2 := lat + dlat
    let rest1 := l.drop p1.2
    let p2 := readVarint rest1 0 0
    let dlng := if jsAnd p2.1 1 ≠ 0 then jsNot (jsShrA p2.1 1) else jsShrA p2.1 1
    let lng2 := lng + dlng
    (lat2, lng2) :: decodeLoop fuel (rest1.drop p2.2) lat2 lng2

/-- `decodePolyline`, fixed-point part: the decoded cumulative coordinates in
units of `1e-5` degrees (the source divides by `1e5` as it pushes each
point; the division is applied by `decodePolyline` below). -/
def decodePolylineInt (e : String) : List (Int × Int) :=
  decodeLoop (codesOf e).length (codesOf e) 0 0

/-- `decodePolyline(encoded)`: decoded cumulative coordinate sequence
(latitude, longitude) in degrees. -/
noncomputable def decodePolyline (e : String) : List (Real × Real) :=
  (decodePolylineInt e).map fun p => ((p.1 : Real) / 100000, (p.2 : Real) / 100000)

/-! ## Specification-side polyline decoder

Written from the spec's words: a byte-oriented variable-length delta
encoding — 5-bit groups, continuation bit at `0x20`, base offset 63,
zig-zag sign, fixed-point scale `1e5` — of successive `(dlat, dlng)` pairs
accumulated from `(0,0)`.  A string is *well-formed* when it parses as a
sequence of complete group runs of at most six groups each (six 5-bit
groups fill 30 bits, so every well-formed value fits comfortably in a
32-bit integer; the spec leaves longer runs undefined). -/

/-- Parse one variable-length value: group `k` contributes its low five bits
times `32^k`; a group with the `0x20` continuation bit set is followed by
more groups.  `gi` is the index of the current group; runs longer than six
groups are rejected as malformed. -/
def specVarint : List Int → Nat → Option (Nat × List Int)
  | [], _ => none
  | c :: rest, gi =>
    if 63 ≤ c ∧ c ≤ 126 then
      if 32 ≤ c - 63 then
        if 5 ≤ gi then none
        else
          match specVarint rest (gi + 1) with
          | none => none
          | some (v, r) => some ((c - 63 - 32).toNat + 32 * v, r)
      else some ((c - 63).toNat, rest)
    else none

/-- Zig-zag sign decoding: even values are non-negative halves, odd values
are negative. -/
def specZigzag (v : Nat) : Int :=
  if v % 2 = 1 then -((v / 2 : Nat) : Int) - 1 else ((v / 2 : Nat) : Int)

/-- Specification-side decode loop: read `(dlat, dlng)` value pairs,
accumulate from `(0,0)`, emit the cumulative pairs in input order.
Returns `none` on malformed input.  The fuel only makes the recursion
structural; started at the list length it cannot run out. -/
def specDecodeLoop : Nat → List Int → Int → Int → Option (List (Int × Int))
  | 0, l, _, _ => if l = [] then some [] else none
  | _ + 1, [], _, _ => some []
  | fuel + 1, l@(_ :: _), lat, lng =>
    match specVarint l 0 with
    | none => none
    | some (v1, r1) =>
      match specVarint r1 0 with
      | none => none
      | some (v2, r2) =>
        let lat2 := lat + specZigzag v1
        let lng2 := lng + specZigzag v2
        match specDecodeLoop fuel r2 lat2 lng2 with
        | none => none
        | some ps => some ((lat2, lng2) :: ps)

/-- Specification-side decoder; `some` exactly on well-formed strings. -/
def specDecodePolyline (e : String) : Option (List (Int × Int)) :=
  specDecodeLoop (codesOf e).length (codesOf e) 0 0

/-! ## Route projection engine

`haversineDistance`, `projectPointOnSegment` and `getDistanceAlongRoute`,
embedded over the real numbers.  The source's `for` loops over segment
indices are embedded as folds over `List.range`; the `Infinity` initial
value of the closest-segment search is embedded as `none` (haversine
distances are always finite, so the first segment always replaces it). -/

noncomputable section

open scoped Classical

/-- Earth radius in kilometers. -/
def earthR : Real := 6371

/-- JavaScript `Math.atan2(y, x)`. -/
def jsAtan2 (y x : Real) : Real :=
  if 0 < x then Real.arctan (y / x)
  else if x < 0 ∧ 0 ≤ y then Real.arctan (y / x) + Real.pi
  else if x < 0 then Real.arctan (y / x) - Real.pi
  else if 0 < y then Real.pi / 2
  else if y < 0 then -(Real.pi / 2)
  else 0

/-- `haversineDistance(lat1, lng1, lat2, lng2)`: great-circle distance in
kilometers. -/
def haversineDistance (lat1 lng1 lat2 lng2 : Real) : Real :=
  let dLat := (lat2 - lat1) * Real.pi / 180
  let dLng := (lng2 - lng1) * Real.pi / 180
  let a :=
    Real.sin (dLat / 2) * Real.sin (dLat / 2) +
      Real.cos (lat1 * Real.pi / 180) * Real.cos (lat2 * Real.pi / 180) *
        Real.sin (dLng / 2) * Real.sin (dLng / 2)
  let c := 2 * jsAtan2 (Real.sqrt a) (Real.sqrt (1 - a))
  earthR * c

/-- `projectPointOnSegment(lat, lng, lat1, lng1, lat2, lng2)`: the closest
point on the segment, clamped to its endpoints; planar projection math. -/
def projectPointOnSegment (lat lng lat1 lng1 lat2 lng2 : Real) : Real × Real :=
  let dx := lng2 - lng1
  let dy := lat2 - lat1
  let lenSq := dx * dx + dy * dy
  if lenSq = 0 then (lat1, lng1)
  else
    let t := max 0 (min 1 (((lng - lng1) * dx + (lat - lat1) * dy) / lenSq))
    (lat1 + t * dy, lng1 + t * dx)

/-- The clamped projection of the query point onto segment `i`
(`routeCoords[i]` to `routeCoords[i+1]`). -/
def segProj (coords : List (Real × Real)) (pLat pLng : Real) (i : Nat) : Real × Real :=
  projectPointOnSegment pLat pLng (coords.getD i (0, 0)).1 (coords.getD i (0, 0)).2
    (coords.getD (i + 1) (0, 0)).1 (coords.getD (i + 1) (0, 0)).2

/-- Haversine distance from the query point to its clamped projection onto
segment `i`. -/
def segPointDist (coords : List (Real × Real)) (pLat pLng : Real) (i : Nat) : Real :=
  haversineDistance pLat pLng (segProj coords pLat pLng i).1 (segProj coords pLat pLng i).2

/-- One step of the source's closest-segment search:
`if (dist < minDist) { minDist = dist; closestIdx = i }`. -/
def closestStep (f : Nat → Real) (st : Option Real × Nat) (i : Nat) : Option Real × Nat :=
  match st.1 with
  | none => (some (f i), i)
  | some m => if f i < m then (some (f i), i) else st

/-- The source's first loop: index of the segment whose clamped projection is
closest to the query point (`closestIdx`). -/
def closestSegIdx (coords : List (Real × Real)) (pLat pLng : Real) : Nat :=
  ((List.range (coords.length - 1)).foldl
    (closestStep (segPointDist coords pLat pLng)) (none, 0)).2

/-- Haversine length of segment `i` of the route. -/
def segLen (coords : List (Real × Real)) (i : Nat) : Real :=
  haversineDistance (coords.getD i (0, 0)).1 (coords.getD i (0, 0)).2
    (coords.getD (i + 1) (0, 0)).1 (coords.getD (i + 1) (0, 0)).2

/-- The source's second loop: cumulative haversine length of the first `k`
segments. -/
def sumSegLens (coords : List (Real × Real)) (k : Nat) : Real :=
  ((List.range k).map (segLen coords)).sum

/-- `getDistanceAlongRoute(routeCoords, pointLat, pointLng)`: cumulative
distance in km along the route to the closest approach of the point. -/
def getDistanceAlongRoute (coords : List (Real × Real)) (pointLat pointLng : Real) : Real :=
  if coords.length < 2 then 0
  else
    let k := closestSegIdx coords pointLat pointLng
    sumSegLens coords k +
      haversineDistance (coords.getD k (0, 0)).1 (coords.getD k (0, 0)).2
        (segProj coords pointLat pointLng k).1 (segProj coords pointLat pointLng k).2

/-! ## Next-stop resolver data model

JavaScript objects are embedded as structures with `Option` fields where the
source tests for presence (`??`, `||`, truthiness).  `dir.shapes` can be a
single encoded string or an array whose entries may or may not be strings
(the source filters with `typeof s === 'string'`); an array entry that is
not a string is embedded as `none`. -/

/-- The `shapes` field of a direction: one encoded string, or an array of
entries of which only the strings (`some`) are decoded. -/
inductive Shapes where
  | one (s : String)
  | many (l : List (Option String))

/-- A stop record: the source reads `stop.lat ?? stop.latitude`,
`stop.lon ?? stop.longitude` and `stop.name || stop.label || '?'`. -/
structure StopPoint where
  lat : Option Real
  lon : Option Real
  latitude : Option Real
  longitude : Option Real
  name : Option String
  label : Option String

/-- One direction: ordered stop list, and geometry as `shapes` or as
GeoJSON `geometry.coordinates` (entries are `(lng, lat)` pairs). -/
structure DirData where
  stopPoints : Option (List StopPoint)
  shapes : Option Shapes
  geometry : Option (List (Real × Real))

/-- `routeData`: either carries a `directions` array, or is itself used as
the single direction (`routeData.directions || [routeData]`). -/
structure RouteData where
  directions : Option (List DirData)
  self : DirData

/-- A vehicle fix as consumed by the marker layer and the resolver. -/
structure Vehicle where
  id : String
  latitude : Real
  longitude : Real
  bearing : Real
  lineColor : String
  lineName : String
  destination : String
  direction : String
  lineId : String

/-- Default direction used only as the (unreachable) `getD` default. -/
def defaultDir : DirData := ⟨none, none, none⟩

/-- JavaScript truthiness of an optional string (empty string is falsy). -/
def strTruthy : Option String → Bool
  | none => false
  | some s => if s = "" then false else true

/-- JavaScript truthiness of an optional number (`0` is falsy; `NaN` does
not arise in the embedded fragment). -/
def numTruthy : Option Real → Bool
  | none => false
  | some x => if x = 0 then false else true

/-- `stop.lat ?? stop.latitude`. -/
def effLat (st : StopPoint) : Option Real := st.lat.orElse fun _ => st.latitude

/-- `stop.lon ?? stop.longitude`. -/
def effLng (st : StopPoint) : Option Real := st.lon.orElse fun _ => st.longitude

/-- `stop.name || stop.label || '?'`. -/
def stopDisplayName (st : StopPoint) : String :=
  if strTruthy st.name then st.name.getD "?"
  else if strTruthy st.label then st.label.getD "?"
  else "?"

/-- GeoJSON fallback: `dir.geometry.coordinates.map(c => [c[1], c[0]])`. -/
def geomCoords (dir : DirData) : List (Real × Real) :=
  match dir.geometry with
  | some cs => cs.map fun c => (c.2, c.1)
  | none => []

/-- The route-geometry decoding block of `calculateNextStop` (source lines
327-339): a single encoded string is decoded directly; an array of encoded
strings is decoded and CONCATENATED with `flatMap`; otherwise the GeoJSON
coordinates are used.  An empty string and an empty array are falsy and fall
through to the GeoJSON branch. -/
def routeCoordsOfDir (dir : DirData) : List (Real × Real) :=
  match dir.shapes with
  | some (Shapes.one s) => if s = "" then geomCoords dir else decodePolyline s
  | some (Shapes.many l) =>
    if l = [] then geomCoords dir
    else ((l.filterMap id).map decodePolyline).flatten
  | none => geomCoords dir

/-- `routeData.directions || [routeData]` followed by the array check:
an absent `directions` wraps the route data itself. -/
def dirList (rd : RouteData) : List DirData :=
  match rd.directions with
  | some l => l
  | none => [rd.self]

/-- `direction === 'return' ? 1 : 0`. -/
def dirIdx (direction : String) : Nat := if direction = "return" then 1 else 0

/-- Distance of the vehicle along the direction's decoded geometry. -/
def vehicleDistOf (dir : DirData) (v : Vehicle) : Real :=
  getDistanceAlongRoute (routeCoordsOfDir dir) v.latitude v.longitude

/-- Distance of a stop along the direction's decoded geometry. -/
def stopDistOf (dir : DirData) (st : StopPoint) : Real :=
  getDistanceAlongRoute (routeCoordsOfDir dir) ((effLat st).getD 0) ((effLng st).getD 0)

/-- `distToStop = stopDist - vehicleDist` for a stop. -/
def stopDelta (dir : DirData) (v : Vehicle) (st : StopPoint) : Real :=
  stopDistOf dir st - vehicleDistOf dir v

/-- One iteration of the stop loop of `calculateNextStop` (source lines
348-362).  State is `(nextStop, minDistToNext)`; `Infinity` is embedded as
`none`.  Stops whose effective latitude or longitude is falsy are skipped. -/
def stopStep (coords : List (Real × Real)) (vehicleDist : Real)
    (st : Option String × Option Real) (stop : StopPoint) : Option String × Option Real :=
  if numTruthy (effLat stop) = false ∨ numTruthy (effLng stop) = false then st
  else
    let stopDist := getDistanceAlongRoute coords ((effLat stop).getD 0) ((effLng stop).getD 0)
    let distToStop := stopDist - vehicleDist
    if distToStop > -0.1 ∧ (match st.2 with | none => True | some m => distToStop < m) then
      (some (stopDisplayName stop), some distToStop)
    else st

/-- `calculateNextStop(vehicle, routeData, direction)`: name of the next
stop, or `none`. -/
def calculateNextStop (vehicle : Option Vehicle) (routeData : Option RouteData)
    (direction : String) : Option String :=
  match routeData, vehicle with
  | some rd, some v =>
    let dirArray := dirList rd
    if dirIdx direction < dirArray.length then
      let dir := dirArray.getD (dirIdx direction) defaultDir
      match dir.stopPoints with
      | none => none
      | some stops =>
        if stops.length = 0 then none
        else
          let routeCoords := routeCoordsOfDir dir
          if routeCoords.length < 2 then none
          else
            let vehicleDist := getDistanceAlongRoute routeCoords v.latitude v.longitude
            (stops.foldl (stopStep routeCoords vehicleDist) (none, none)).1
    else none
  | _, _ => none

end

/-! ## Marker reconciliation and animation engine (`BusMarkerLayer`)

The component state is a registry (a JavaScript `Map`, embedded as an
insertion-ordered association list with unique keys), the viewport-busy
flag, the buffered snapshot, and whether the animation clock is scheduled
(`animFrameId !== null`).  Calls into the map widget are recorded as a list
of `WCall` values in call order. -/

noncomputable section

open scoped Classical

/-- Per-vehicle registry entry (`registry` values in the source). -/
structure Entry where
  lat : Real
  lng : Real
  srcLat : Real
  srcLng : Real
  dstLat : Real
  dstLng : Real
  bearing : Real
  color : String
  lineName : String
  direction : String
  nextStopName : Option String

/-- Component state of `BusMarkerLayer`. -/
structure LayerState where
  hasMap : Bool
  mapBusy : Bool
  pending : Option (List Vehicle)
  registry : List (String × Entry)
  animActive : Bool

/-- Calls made into the map widget, in order. -/
inductive WCall where
  | place (id : String) (lat lng : Real)
  | move (id : String) (lat lng : Real)
  | updateEl (id : String) (bearing : Real) (color lineName : String)
  | setPopup (id : String)
  | removeMarker (id : String)

/-- The vehicle identifier a widget call refers to. -/
def wcallId : WCall → String
  | WCall.place i _ _ => i
  | WCall.move i _ _ => i
  | WCall.updateEl i _ _ _ => i
  | WCall.setPopup i => i
  | WCall.removeMarker i => i

/-- Whether a call is a marker placement for `id`. -/
def isPlaceFor (id : String) : WCall → Bool
  | WCall.place i _ _ => i = id
  | _ => false

/-- Whether a call is a marker removal for `id`. -/
def isRemoveFor (id : String) : WCall → Bool
  | WCall.removeMarker i => i = id
  | _ => false

/-- `registry.get(id)`. -/
def regGet (reg : List (String × Entry)) (id : String) : Option Entry :=
  (reg.find? fun p => p.1 = id).map fun p => p.2

/-- `registry.set(id, e)`: replace the entry under an existing key in place,
otherwise append (JavaScript `Map` insertion order). -/
def regSet (reg : List (String × Entry)) (id : String) (e : Entry) : List (String × Entry) :=
  if (reg.find? fun p => p.1 = id).isSome then
    reg.map fun p => if p.1 = id then (id, e) else p
  else reg ++ [(id, e)]

/-- The entry created for a vehicle with no registry entry: displayed,
source and destination coordinates all equal the fix coordinate. -/
def newEntry (v : Vehicle) (nsn : Option String) : Entry :=
  ⟨v.latitude, v.longitude, v.latitude, v.longitude, v.latitude, v.longitude,
    v.bearing, v.lineColor, v.lineName, v.direction, nsn⟩

/-- The update applied to an existing entry: visual attributes only when one
of them changed; animation source is the currently displayed coordinate and
destination the new fix coordinate. -/
def updatedEntry (ex : Entry) (v : Vehicle) (nsn : Option String) : Entry :=
  let ex2 :=
    if ex.bearing = v.bearing ∧ ex.color = v.lineColor ∧ ex.lineName = v.lineName then ex
    else { ex with bearing := v.bearing, color := v.lineColor, lineName := v.lineName }
  { ex2 with
    srcLat := ex.lat
    srcLng := ex.lng
    dstLat := v.latitude
    dstLng := v.longitude
    direction := v.direction
    nextStopName := nsn }

/-- `store.lineRoutes.get(v.lineId)` followed by
`routeData ? calculateNextStop(v, routeData, v.direction) : null`. -/
def nextStopNameFor (routes : String → Option RouteData) (v : Vehicle) : Option String :=
  match routes v.lineId with
  | some rd => calculateNextStop (some v) (some rd) v.direction
  | none => none

/-- Processing of one incoming fix inside `sync`: update an existing entry
(widget element update only on visual change, then popup refresh) or create
a new entry and place its marker. -/
def syncVehicle (routes : String → Option RouteData) (reg : List (String × Entry))
    (v : Vehicle) : List (String × Entry) × List WCall :=
  let nsn := nextStopNameFor routes v
  match regGet reg v.id with
  | some ex =>
    let updCalls :=
      if ex.bearing = v.bearing ∧ ex.color = v.lineColor ∧ ex.lineName = v.lineName then
        ([] : List WCall)
      else [WCall.updateEl v.id v.bearing v.lineColor v.lineName]
    (regSet reg v.id (updatedEntry ex v nsn), updCalls ++ [WCall.setPopup v.id])
  | none =>
    (regSet reg v.id (newEntry v nsn), [WCall.place v.id v.latitude v.longitude])

/-- The `for (const v of vehicles)` loop of `sync`. -/
def syncLoop (routes : String → Option RouteData) :
    List Vehicle → List (String × Entry) → List (String × Entry) × List WCall
  | [], reg => (reg, [])
  | v :: vs, reg =>
    let p := syncVehicle routes reg v
    let q := syncLoop routes vs p.1
    (q.1, p.2 ++ q.2)

/-- The stale-marker removal pass of `sync`: every registry entry whose
identifier is not in the incoming snapshot has its marker removed and its
entry deleted. -/
def removePass (reg : List (String × Entry)) (ids : List String) :
    List (String × Entry) × List WCall :=
  (reg.filter fun p => p.1 ∈ ids,
    (reg.filter fun p => p.1 ∉ ids).map fun p => WCall.removeMarker p.1)

/-- `sync(vehicles)`.  Returns the new component state and the widget calls
made.  While the map is busy the snapshot is buffered and nothing else
happens; otherwise the registry is reconciled and the animation clock is
restarted (`startAnim` always schedules a frame when the map is not busy). -/
def sync (routes : String → Option RouteData) (s : LayerState) (vehicles : List Vehicle) :
    LayerState × List WCall :=
  if s.hasMap = false then (s, [])
  else if s.mapBusy then ({ s with pending := some vehicles }, [])
  else
    let ids := vehicles.map fun v => v.id
    let p := syncLoop routes vehicles s.registry
    let q := removePass p.1 ids
    ({ s with registry := q.1, animActive := true }, p.2 ++ q.2)

/-- `onBusy`: enter the viewport-busy state and cancel the animation clock. -/
def onBusy (s : LayerState) : LayerState :=
  { s with mapBusy := true, animActive := false }

/-- `onIdle`: leave the viewport-busy state; if a snapshot was buffered
while busy, clear the buffer and replay it through `sync`. -/
def onIdle (routes : String → Option RouteData) (s : LayerState) : LayerState × List WCall :=
  match s.pending with
  | some data => sync routes { s with mapBusy := false, pending := none } data
  | none => ({ s with mapBusy := false }, [])

/-- `ANIM_MS`: duration of position interpolation in milliseconds. -/
def ANIM_MS : Real := 2200

/-- Body of the per-frame `tick` over the registry: settled entries are
skipped; others are moved to the eased interpolation between source and
destination, and snapped (stored position set to the destination) when
`t` has reached 1. -/
def tickReg (t ease : Real) : List (String × Entry) → List (String × Entry) × List WCall
  | [] => ([], [])
  | p :: rest =>
    let e := p.2
    let q := tickReg t ease rest
    if e.lat = e.dstLat ∧ e.lng = e.dstLng then ((p.1, e) :: q.1, q.2)
    else
      let newLat := e.srcLat + (e.dstLat - e.srcLat) * ease
      let newLng := e.srcLng + (e.dstLng - e.srcLng) * ease
      let e2 := if 1 ≤ t then { e with lat := e.dstLat, lng := e.dstLng } else e
      ((p.1, e2) :: q.1, WCall.move p.1 newLat newLng :: q.2)

/-- One animation frame (`tick(now)`): abort leaving state untouched if the
map became busy; otherwise interpolate every non-settled marker with the
ease-out-quadratic curve and keep the clock scheduled while `t < 1`. -/
def tick (s : LayerState) (animStart now : Real) : LayerState × List WCall :=
  if s.mapBusy then ({ s with animActive := false }, [])
  else
    let t := min ((now - animStart) / ANIM_MS) 1
    let ease := t * (2 - t)
    let q := tickReg t ease s.registry
    ({ s with registry := q.1, animActive := if t < 1 then true else false }, q.2)

end

/-! ## Gate and animation theorems -/

noncomputable section

open scoped Classical

/-- Snapping lemma for one tick pass at `t = 1`: every produced entry is
settled, and every non-settled input entry receives a move call to exactly
its destination coordinate. -/
theorem tickReg_snap (t ease : Real) (ht : 1 ≤ t) (he : ease = 1)
    (reg : List (String × Entry)) :
    (∀ p ∈ (tickReg t ease reg).1, p.2.lat = p.2.dstLat ∧ p.2.lng = p.2.dstLng)
    ∧ ∀ p ∈ reg, ¬(p.2.lat = p.2.dstLat ∧ p.2.lng = p.2.dstLng) →
        WCall.move p.1 p.2.dstLat p.2.dstLng ∈ (tickReg t ease reg).2 := by
  induction reg with
  | nil => simp [tickReg]
  | cons p rest ih =>
    by_cases hs : p.2.lat = p.2.dstLat ∧ p.2.lng = p.2.dstLng
    · constructor
      · intro q hq
        simp only [tickReg, if_pos hs] at hq
        rcases List.mem_cons.mp hq with h | h
        · subst h; exact hs
        · exact ih.1 q h
      · intro q hq hns
        rcases List.mem_cons.mp hq with h | h
        · subst h; exact absurd hs hns
        · simp only [tickReg, if_pos hs]
          exact ih.2 q h hns
    · have hsnap : (if 1 ≤ t then
          { p.2 with lat := p.2.dstLat, lng := p.2.dstLng } else p.2) =
          { p.2 with lat := p.2.dstLat, lng := p.2.dstLng } := if_pos ht
      have hlat : p.2.srcLat + (p.2.dstLat - p.2.srcLat) * ease = p.2.dstLat := by
        rw [he]; ring
      have hlng : p.2.srcLng + (p.2.dstLng - p.2.srcLng) * ease = p.2.dstLng := by
        rw [he]; ring
      constructor
      · intro q hq
        simp only [tickReg, if_neg hs, hsnap] at hq
        rcases List.mem_cons.mp hq with h | h
        · subst h; exact ⟨rfl, rfl⟩
        · exact ih.1 q h
      · intro q hq hns
        simp only [tickReg, if_neg hs, hlat, hlng]
        rcases List.mem_cons.mp hq with h | h
        · subst h; exact List.mem_cons_self _ _
        · exact List.mem_cons_of_mem _ (ih.2 q h hns)

/-- C5: for every registry entry with `source != destination`, when the
animation parameter `t` reaches 1 the coordinate handed to the map widget
is exactly the destination (the interpolation
`src + (dst - src) * ease` with `ease = 1` has no residual error), the
stored position is snapped to the destination, and the clock stops
(every entry of the produced registry is settled and `animActive` is
false).  Displayed coordinates are the `lat`/`lng` fields of the registry,
as in the data model of the spec. -/
theorem tick_at_t1_snaps_to_destination (s : LayerState) (animStart now : Real)
    (hb : s.mapBusy = false) (hd : ANIM_MS ≤ now - animStart) :
    (∀ p ∈ s.registry, ¬(p.2.lat = p.2.dstLat ∧ p.2.lng = p.2.dstLng) →
        WCall.move p.1 p.2.dstLat p.2.dstLng ∈ (tick s animStart now).2)
    ∧ (∀ p ∈ (tick s animStart now).1.registry,
        p.2.lat = p.2.dstLat ∧ p.2.lng = p.2.dstLng)
    ∧ (tick s animStart now).1.animActive = false := by
  have hpos : (0 : Real) < ANIM_MS := by norm_num [ANIM_MS]
  have hone : (1 : Real) ≤ (now - animStart) / ANIM_MS :=
    (one_le_div hpos).mpr hd
  have hmin : min ((now - animStart) / ANIM_MS) 1 = 1 := min_eq_right hone
  have hsnap := tickReg_snap 1 (1 * (2 - 1)) le_rfl (by norm_num) s.registry
  constructor
  · intro p hp hns
    simp only [tick, hb, Bool.false_eq_true, if_false, hmin]
    exact hsnap.2 p hp hns
  · constructor
    · intro p hp
      simp only [tick, hb, Bool.false_eq_true, if_false, hmin] at hp
      exact hsnap.1 p hp
    · simp [tick, hb, hmin]

/-- Concrete state for the C5 witness: one unsettled entry. -/
def entryW : Entry := ⟨0, 0, 0, 0, 1, 1, 0, "ff0000", "C3", "outward", none⟩

/-- Concrete layer state for the C5 witness. -/
def sW : LayerState := ⟨true, false, none, [("veh1", entryW)], true⟩

/-- Witness for C5 at a concrete state and a frame at `t = 1`. -/
theorem tick_at_t1_snaps_to_destination_witness :
    (∀ p ∈ (tick sW 0 2200).1.registry, p.2.lat = p.2.dstLat ∧ p.2.lng = p.2.dstLng)
    ∧ (tick sW 0 2200).1.animActive = false :=
  ⟨(tick_at_t1_snaps_to_destination sW 0 2200 rfl (by norm_num [ANIM_MS])).2.1,
    (tick_at_t1_snaps_to_destination sW 0 2200 rfl (by norm_num [ANIM_MS])).2.2⟩

/-- C3: a `sync` while the gate is busy only replaces the buffered snapshot
(no registry mutation, no widget call, no animation start), and the
busy-to-idle transition with a buffered snapshot invokes `sync` exactly
once with that snapshot from the un-busied state, leaving the buffer
cleared. -/
theorem sync_busy_buffers_and_idle_replays
    (routes : String → Option RouteData) (s : LayerState) (vs : List Vehicle)
    (hm : s.hasMap = true) (hb : s.mapBusy = true) :
    sync routes s vs = ({ s with pending := some vs }, ([] : List WCall))
    ∧ ∀ (s2 : LayerState) (data : List Vehicle), s2.pending = some data →
        onIdle routes s2 = sync routes { s2 with mapBusy := false, pending := none } data
        ∧ ((onIdle routes s2).1).pending = none := by
  constructor
  · simp [sync, hm, hb]
  · intro s2 data h2
    constructor
    · simp [onIdle, h2]
    · simp only [onIdle, h2]
      by_cases hm2 : s2.hasMap = false
      · simp [sync, hm2]
      · simp only [Bool.not_eq_false] at hm2
        simp [sync, hm2]

/-- Concrete busy state for the C3 witness. -/
def s3W : LayerState := ⟨true, true, none, [], false⟩

/-- Witness for C3: buffering at a concrete busy state. -/
theorem sync_busy_buffers_and_idle_replays_witness :
    sync (fun _ => none) s3W [] = ({ s3W with pending := some [] }, ([] : List WCall)) :=
  (sync_busy_buffers_and_idle_replays (fun _ => none) s3W [] rfl rfl).1

end

/-! ## Next-stop resolver: degenerate inputs and falsy-coordinate stops -/

noncomputable section

open scoped Classical

/-- C9: `calculateNextStop` returns `none` when the selected direction has
no stop list, an empty stop list, or a decoded geometry of fewer than two
points (which subsumes the case of no geometry at all, whose decoded
coordinate list is empty). -/
theorem calculateNextStop_none_on_degenerate
    (v : Vehicle) (rd : RouteData) (d : String) (dir : DirData)
    (hlt : dirIdx d < (dirList rd).length)
    (hget : (dirList rd).getD (dirIdx d) defaultDir = dir)
    (h : dir.stopPoints = none ∨ dir.stopPoints = some []
        ∨ (routeCoordsOfDir dir).length < 2) :
    calculateNextStop (some v) (some rd) d = none := by
  simp only [calculateNextStop, if_pos hlt, hget]
  rcases h with h | h | h
  · simp [h]
  · simp [h]
  · cases hs : dir.stopPoints with
    | none => simp
    | some stops =>
      by_cases he : stops.length = 0
      · simp [he]
      · simp [he, if_pos h]

/-- Concrete direction with an empty stop list, for the C9 witness. -/
def dirE : DirData := ⟨some [], none, none⟩

/-- Concrete route data for the C9 witness. -/
def rdE : RouteData := ⟨some [dirE], dirE⟩

/-- Concrete vehicle fix for the C9 witness. -/
def vE : Vehicle := ⟨"veh9", 45, 4, 0, "ff0000", "C3", "Terminus", "outward", "line9"⟩

/-- Witness for C9 at a concrete direction with zero stops. -/
theorem calculateNextStop_none_on_degenerate_witness :
    calculateNextStop (some vE) (some rdE) "outward" = none :=
  calculateNextStop_none_on_degenerate vE rdE "outward" dirE
    (by simp [dirIdx, dirList, rdE]) rfl (Or.inr (Or.inl rfl))

/-- The stop filter used to state C10. -/
def stopTruthy (st : StopPoint) : Bool :=
  numTruthy (effLat st) && numTruthy (effLng st)

/-- Drop the stops with falsy effective coordinates from a direction. -/
def filterDirStops (dir : DirData) : DirData :=
  ⟨dir.stopPoints.map (List.filter stopTruthy), dir.shapes, dir.geometry⟩

/-- Drop the stops with falsy effective coordinates from every direction. -/
def filterTruthyStops (rd : RouteData) : RouteData :=
  ⟨rd.directions.map (List.map filterDirStops), filterDirStops rd.self⟩

/-- The stop loop ignores stops with falsy effective coordinates. -/
theorem stopFold_filter (coords : List (Real × Real)) (vd : Real)
    (stops : List StopPoint) (st0 : Option String × Option Real) :
    (stops.filter stopTruthy).foldl (stopStep coords vd) st0
      = stops.foldl (stopStep coords vd) st0 := by
  induction stops generalizing st0 with
  | nil => rfl
  | cons stop rest ih =>
    simp only [List.filter_cons]
    by_cases ht : stopTruthy stop = true
    · rw [if_pos ht, List.foldl_cons, List.foldl_cons, ih]
    · have hor : numTruthy (effLat stop) = false ∨ numTruthy (effLng stop) = false := by
        cases h1 : numTruthy (effLat stop) with
        | false => exact Or.inl rfl
        | true =>
          cases h2 : numTruthy (effLng stop) with
          | false => exact Or.inr rfl
          | true => exact absurd (by simp [stopTruthy, h1, h2]) ht
      have hskip : stopStep coords vd st0 stop = st0 := by
        simp only [stopStep]
        rw [if_pos hor]
      rw [if_neg ht, List.foldl_cons, hskip, ih]

/-- `Option.map` on a present value. -/
theorem option_map_some {α β : Type} (f : α → β) (a : α) :
    Option.map f (some a) = some (f a) := rfl

/-- `getD` of a mapped list, in bounds, for arbitrary defaults. -/
theorem getD_map_of_lt {α β : Type} (f : α → β) (l : List α) (i : Nat)
    (d0 : β) (d1 : α) (h : i < l.length) :
    (l.map f).getD i d0 = f (l.getD i d1) := by
  induction l generalizing i with
  | nil => simp at h
  | cons a rest ih =>
    cases i with
    | zero => rfl
    | succ j =>
      simp only [List.map_cons, List.getD_cons_succ]
      exact ih j (by simpa using h)

/-- C10: stops whose effective latitude or longitude is absent or `0` are
skipped entirely by `calculateNextStop` (the falsy check treats a zero
coordinate like a missing one): the result is unchanged when all such
stops are deleted from the stop lists, so such a stop is never the
returned next stop. -/
theorem calculateNextStop_skips_falsy_coordinate_stops
    (v : Vehicle) (rd : RouteData) (d : String) :
    calculateNextStop (some v) (some (filterTruthyStops rd)) d
      = calculateNextStop (some v) (some rd) d := by
  have hdirs : dirList (filterTruthyStops rd) = (dirList rd).map filterDirStops := by
    cases h : rd.directions with
    | none => simp [dirList, filterTruthyStops, h]
    | some l => simp [dirList, filterTruthyStops, h]
  have hlen : (dirList (filterTruthyStops rd)).length = (dirList rd).length := by
    rw [hdirs, List.length_map]
  by_cases hlt : dirIdx d < (dirList rd).length
  · rcases hget0 : (dirList rd).getD (dirIdx d) defaultDir with ⟨sp, sh, ge⟩
    have hget : (dirList (filterTruthyStops rd)).getD (dirIdx d) defaultDir
        = filterDirStops ⟨sp, sh, ge⟩ := by
      rw [hdirs, getD_map_of_lt filterDirStops _ _ _ defaultDir hlt, hget0]
    have hrc : routeCoordsOfDir (filterDirStops ⟨sp, sh, ge⟩)
        = routeCoordsOfDir ⟨sp, sh, ge⟩ := rfl
    simp only [calculateNextStop, if_pos hlt, if_pos (hlen ▸ hlt : dirIdx d <
      (dirList (filterTruthyStops rd)).length), hget, hget0, hrc]
    cases sp with
    | none => simp [filterDirStops]
    | some stops =>
      simp only [filterDirStops, option_map_some]
      by_cases he : stops.length = 0
      · have hnil : stops = [] := List.length_eq_zero.mp he
        subst hnil
        simp
      · by_cases hef : (stops.filter stopTruthy).length = 0
        · have hfnil : stops.filter stopTruthy = [] := List.length_eq_zero.mp hef
          simp only [hfnil, List.length_nil, if_pos rfl, he, if_neg he]
          by_cases hg : (routeCoordsOfDir ⟨some stops, sh, ge⟩).length < 2
          · simp [hg]
          · simp only [hg, if_false]
            have hfold := stopFold_filter (routeCoordsOfDir ⟨some stops, sh, ge⟩)
              (getDistanceAlongRoute (routeCoordsOfDir ⟨some stops, sh, ge⟩)
                v.latitude v.longitude) stops (none, none)
            rw [hfnil] at hfold
            simp only [List.foldl_nil] at hfold
            rw [← hfold]
            simp
        · simp only [he, if_neg he, hef, if_neg hef]
          by_cases hg : (routeCoordsOfDir ⟨some stops, sh, ge⟩).length < 2
          · simp [hg]
          · simp only [hg, if_false]
            rw [stopFold_filter]
  · have hlt2 : ¬ dirIdx d < (dirList (filterTruthyStops rd)).length := by
      rw [hlen]; exact hlt
    simp [calculateNextStop, hlt, hlt2]

end

/-! ## The closest-segment search selects the first minimum -/

noncomputable section

open scoped Classical

/-- `k` is the lowest index attaining the minimum of `f` on `[0, n)`:
it attains the minimum and is strictly below every earlier value. -/
def IsFirstMinIdx (f : Nat → Real) (n k : Nat) : Prop :=
  k < n ∧ (∀ j, j < n → f k ≤ f j) ∧ (∀ j, j < k → f k < f j)

/-- The fold implementing the source's `if (dist < minDist)` loop computes
the first minimum index. -/
theorem foldRange_closest (f : Nat → Real) :
    ∀ n, 1 ≤ n →
      ∃ k, ((List.range n).foldl (closestStep f) (none, 0)) = (some (f k), k)
        ∧ IsFirstMinIdx f n k := by
  intro n hn
  induction n with
  | zero => omega
  | succ m ih =>
    by_cases hm : 1 ≤ m
    · obtain ⟨k, hfold, hk⟩ := ih hm
      rw [List.range_succ, List.foldl_append, hfold]
      simp only [List.foldl_cons, List.foldl_nil, closestStep]
      by_cases hlt : f m < f k
      · refine ⟨m, by simp [hlt], Nat.lt_succ_self m, ?_, ?_⟩
        · intro j hj
          rcases Nat.lt_succ_iff_lt_or_eq.mp hj with h | h
          · exact le_trans (le_of_lt hlt) (hk.2.1 j h)
          · subst h; exact le_refl _
        · intro j hj
          exact lt_of_lt_of_le hlt (hk.2.1 j hj)
      · refine ⟨k, by simp [hlt], Nat.lt_succ_of_lt hk.1, ?_, hk.2.2⟩
        intro j hj
        rcases Nat.lt_succ_iff_lt_or_eq.mp hj with h | h
        · exact hk.2.1 j h
        · subst h; exact le_of_not_lt hlt
    · have hm0 : m = 0 := by omega
      subst hm0
      refine ⟨0, by simp [List.range_succ, closestStep], Nat.lt_succ_self 0, ?_, ?_⟩
      · intro j hj
        have : j = 0 := by omega
        subst this; exact le_refl _
      · intro j hj
        exact absurd hj (Nat.not_lt_zero j)

/-- The first minimum index is unique. -/
theorem isFirstMinIdx_unique (f : Nat → Real) (n k1 k2 : Nat)
    (h1 : IsFirstMinIdx f n k1) (h2 : IsFirstMinIdx f n k2) : k1 = k2 := by
  by_contra hne
  rcases Nat.lt_or_ge k1 k2 with h | h
  · exact absurd (h1.2.1 k2 h2.1) (not_le.mpr (h2.2.2 k1 h))
  · have hlt : k2 < k1 := by omega
    exact absurd (h2.2.1 k1 h1.1) (not_le.mpr (h1.2.2 k2 hlt))

/-- `closestIdx` of the source is the lowest-index segment whose clamped
projection is haversine-closest to the query point. -/
theorem closestSegIdx_isFirstMin (coords : List (Real × Real)) (pLat pLng : Real)
    (h : 2 ≤ coords.length) :
    IsFirstMinIdx (segPointDist coords pLat pLng) (coords.length - 1)
      (closestSegIdx coords pLat pLng) := by
  have hn : 1 ≤ coords.length - 1 := by omega
  obtain ⟨k, hfold, hk⟩ := foldRange_closest (segPointDist coords pLat pLng) _ hn
  unfold closestSegIdx
  rw [hfold]
  exact hk

/-- C6: for every route of at least two coordinates, the distance along the
route equals the sum of the haversine lengths of all segments strictly
before the chosen segment plus the haversine distance from the chosen
segment's start to the clamped projection of the point onto it, where the
chosen segment is the first (lowest-index) one whose clamped projection is
haversine-closest to the point. -/
theorem getDistanceAlongRoute_first_closest_segment_sum
    (coords : List (Real × Real)) (pLat pLng : Real) (h : 2 ≤ coords.length) :
    ∃ k, IsFirstMinIdx (segPointDist coords pLat pLng) (coords.length - 1) k
      ∧ getDistanceAlongRoute coords pLat pLng
          = sumSegLens coords k
            + haversineDistance (coords.getD k (0, 0)).1 (coords.getD k (0, 0)).2
                (segProj coords pLat pLng k).1 (segProj coords pLat pLng k).2 := by
  refine ⟨closestSegIdx coords pLat pLng,
    closestSegIdx_isFirstMin coords pLat pLng h, ?_⟩
  have hnot : ¬ coords.length < 2 := by omega
  simp [getDistanceAlongRoute, hnot]

/-- Concrete two-point route for the C6 witness. -/
def routeC6W : List (Real × Real) := [(0, 0), (0, 1)]

/-- Witness for C6 on a concrete two-point route and query point. -/
theorem getDistanceAlongRoute_first_closest_segment_sum_witness :
    ∃ k, IsFirstMinIdx (segPointDist routeC6W 0 0.5) (routeC6W.length - 1) k
      ∧ getDistanceAlongRoute routeC6W 0 0.5
          = sumSegLens routeC6W k
            + haversineDistance (routeC6W.getD k (0, 0)).1 (routeC6W.getD k (0, 0)).2
                (segProj routeC6W 0 0.5 k).1 (segProj routeC6W 0 0.5 k).2 :=
  getDistanceAlongRoute_first_closest_segment_sum routeC6W 0 0.5 (by norm_num [routeC6W])

end

/-! ## Exact haversine values on meridian-aligned configurations

On a route of constant longitude, the haversine formula reduces to
`earthR * |dlat| * pi / 180`, giving exact distances usable in concrete
scenarios. -/

noncomputable section

open scoped Classical

/-- `atan2` applied to `sqrt(sin^2 t)` and `sqrt(1 - sin^2 t)` recovers
`|t|` for `|t| <= pi/2`. -/
theorem jsAtan2_sin_sq (t : Real) (hle : |t| ≤ Real.pi / 2) :
    jsAtan2 (Real.sqrt (Real.sin t * Real.sin t))
      (Real.sqrt (1 - Real.sin t * Real.sin t)) = |t| := by
  have hpi := Real.pi_pos
  have hban := abs_le.mp hle
  have h1s : 1 - Real.sin t * Real.sin t = Real.cos t ^ 2 := by
    have := Real.sin_sq_add_cos_sq t
    nlinarith [this]
  have hcosnn : 0 ≤ Real.cos t := Real.cos_nonneg_of_mem_Icc ⟨hban.1, hban.2⟩
  have hsqrt1 : Real.sqrt (Real.sin t * Real.sin t) = |Real.sin t| := by
    rw [show Real.sin t * Real.sin t = Real.sin t ^ 2 by ring, Real.sqrt_sq_eq_abs]
  have hsqrt2 : Real.sqrt (1 - Real.sin t * Real.sin t) = Real.cos t := by
    rw [h1s, Real.sqrt_sq_eq_abs, abs_of_nonneg hcosnn]
  have hsinabs : |Real.sin t| = Real.sin |t| := by
    rcases le_or_lt 0 t with h0 | h0
    · rw [abs_of_nonneg h0,
        abs_of_nonneg (Real.sin_nonneg_of_nonneg_of_le_pi h0 (by linarith))]
    · have hsneg : Real.sin t ≤ 0 := by
        have hn : 0 ≤ Real.sin (-t) :=
          Real.sin_nonneg_of_nonneg_of_le_pi (by linarith) (by
            have : -t = |t| := (abs_of_neg h0).symm
            linarith [hle, hpi])
        rw [Real.sin_neg] at hn
        linarith
      rw [abs_of_neg h0, abs_of_nonpos hsneg, Real.sin_neg]
  rw [hsqrt1, hsqrt2, hsinabs]
  rcases lt_or_eq_of_le hle with hlt | heq
  · have hcpos : 0 < Real.cos t := by
      rw [← Real.cos_abs]
      exact Real.cos_pos_of_mem_Ioo ⟨by linarith [abs_nonneg t], hlt⟩
    have htan : Real.sin |t| / Real.cos t = Real.tan |t| := by
      rw [Real.tan_eq_sin_div_cos, Real.cos_abs]
    simp only [jsAtan2, if_pos hcpos]
    rw [htan]
    exact Real.arctan_tan (by linarith [abs_nonneg t]) hlt
  · have hc0 : Real.cos t = 0 := by
      rw [← Real.cos_abs, heq, Real.cos_pi_div_two]
    rw [hc0, heq, Real.sin_pi_div_two]
    simp only [jsAtan2]
    norm_num [hpi]

/-- Haversine distance between two points of equal longitude:
`earthR * |dlat| * pi / 180`, for latitude spans of at most 180 degrees. -/
theorem haversine_meridian (lam p1 p2 : Real) (h : |p2 - p1| ≤ 180) :
    haversineDistance p1 lam p2 lam = earthR * |p2 - p1| * Real.pi / 180 := by
  have hpi := Real.pi_pos
  have habs : |(p2 - p1) * Real.pi / 180 / 2| = |p2 - p1| * Real.pi / 360 := by
    rw [abs_div, abs_div, abs_mul, abs_of_pos hpi]
    norm_num
    ring
  have hle : |(p2 - p1) * Real.pi / 180 / 2| ≤ Real.pi / 2 := by
    rw [habs]
    calc |p2 - p1| * Real.pi / 360 ≤ 180 * Real.pi / 360 := by
          have := mul_le_mul_of_nonneg_right h hpi.le
          linarith
      _ = Real.pi / 2 := by ring
  simp only [haversineDistance, sub_self, zero_mul, zero_div, Real.sin_zero,
    mul_zero, add_zero]
  rw [jsAtan2_sin_sq _ hle, habs]
  ring

/-- Projection onto a vertical (constant-longitude) segment clamps the
latitude into the segment's latitude interval. -/
theorem projectPointOnSegment_vertical (x y p q lam : Real) (hpq : p < q) :
    projectPointOnSegment x y p lam q lam = (max p (min x q), lam) := by
  have hqp : (0 : Real) < q - p := by linarith
  have hlen2 : ¬ ((q - p) * (q - p) = 0) := ne_of_gt (mul_pos hqp hqp)
  simp only [projectPointOnSegment, sub_self, mul_zero, zero_mul, add_zero, zero_add]
  rw [if_neg hlen2]
  have hdiv : (x - p) * (q - p) / ((q - p) * (q - p)) = (x - p) / (q - p) :=
    mul_div_mul_right _ _ (ne_of_gt hqp)
  rw [hdiv]
  refine Prod.ext ?_ rfl
  show p + max 0 (min 1 ((x - p) / (q - p))) * (q - p) = max p (min x q)
  rcases le_total x p with h1 | h1
  · have hv : (x - p) / (q - p) ≤ 0 :=
      div_nonpos_of_nonpos_of_nonneg (by linarith) hqp.le
    rw [min_eq_right (by linarith : (x - p) / (q - p) ≤ 1), max_eq_left hv,
      zero_mul, add_zero, min_eq_left (by linarith : x ≤ q), max_eq_left h1]
  · rcases le_total x q with h2 | h2
    · have hv0 : 0 ≤ (x - p) / (q - p) := div_nonneg (by linarith) hqp.le
      have hv1 : (x - p) / (q - p) ≤ 1 := (div_le_one hqp).mpr (by linarith)
      rw [min_eq_right hv1, max_eq_right hv0, div_mul_cancel₀ _ (ne_of_gt hqp),
        min_eq_left h2, max_eq_right h1]
      ring
    · have hv1 : 1 ≤ (x - p) / (q - p) := (one_le_div hqp).mpr (by linarith)
      rw [min_eq_left hv1, max_eq_right zero_le_one, one_mul,
        min_eq_right h2, max_eq_right hpq.le]
      ring

end

/-! ## Distance along a meridian-aligned route -/

noncomputable section

open scoped Classical

/-- Latitude spans between two points in `[-90, 90]` stay within 180. -/
theorem absGap (a b : Real) (ha1 : -90 ≤ a) (ha2 : a ≤ 90)
    (hb1 : -90 ≤ b) (hb2 : b ≤ 90) : |b - a| ≤ 180 := by
  rw [abs_le]
  constructor <;> linarith

/-- On a route of constant longitude and strictly increasing valid
latitudes, `getDistanceAlongRoute` at an on-route point of latitude `x` is
exactly the meridian arc length from the route start to `x`. -/
theorem getDistanceAlongRoute_meridian
    (lam : Real) (lats : List Real) (x : Real)
    (hlen : 2 ≤ lats.length)
    (hmono : ∀ i j, i < j → j < lats.length → lats.getD i 0 < lats.getD j 0)
    (hvalid : ∀ i, i < lats.length → |lats.getD i 0| ≤ 90)
    (hx0 : lats.getD 0 0 ≤ x) (hxl : x ≤ lats.getD (lats.length - 1) 0) :
    getDistanceAlongRoute (lats.map fun a => (a, lam)) x lam
      = earthR * (x - lats.getD 0 0) * Real.pi / 180 := by
  set n := lats.length with hn
  set coords := lats.map fun a => (a, lam) with hcoords
  have hclen : coords.length = n := by rw [hcoords, List.length_map]
  have hget : ∀ j, j < n → coords.getD j (0, 0) = (lats.getD j 0, lam) := by
    intro j hj
    rw [hcoords]
    exact getD_map_of_lt _ lats j (0, 0) 0 hj
  have hRpos : (0 : Real) < earthR := by norm_num [earthR]
  have hvb : ∀ i, i < n → -90 ≤ lats.getD i 0 ∧ lats.getD i 0 ≤ 90 := by
    intro i hi
    exact abs_le.mp (hvalid i hi)
  have hxlow : -90 ≤ x := le_trans (hvb 0 (by omega)).1 hx0
  have hxhigh : x ≤ 90 := le_trans hxl (hvb (n - 1) (by omega)).2
  have hsegdist : ∀ j, j < n - 1 → segPointDist coords x lam j
      = earthR * |max (lats.getD j 0) (min x (lats.getD (j + 1) 0)) - x|
          * Real.pi / 180 := by
    intro j hj
    have hj1 : j < n := by omega
    have hj2 : j + 1 < n := by omega
    have hadj : lats.getD j 0 < lats.getD (j + 1) 0 :=
      hmono j (j + 1) (Nat.lt_succ_self j) hj2
    have hproj : segProj coords x lam j
        = (max (lats.getD j 0) (min x (lats.getD (j + 1) 0)), lam) := by
      rw [segProj, hget j hj1, hget (j + 1) hj2]
      exact projectPointOnSegment_vertical x lam _ _ lam hadj
    rw [segPointDist, hproj]
    have hcl1 : -90 ≤ max (lats.getD j 0) (min x (lats.getD (j + 1) 0)) :=
      le_trans (hvb j hj1).1 (le_max_left _ _)
    have hcl2 : max (lats.getD j 0) (min x (lats.getD (j + 1) 0)) ≤ 90 :=
      max_le (hvb j hj1).2 (le_trans (min_le_right _ _) (hvb (j + 1) hj2).2)
    exact haversine_meridian lam x _ (absGap x _ hxlow hxhigh hcl1 hcl2)
  have hex : ∃ j, x ≤ lats.getD (j + 1) 0 := by
    refine ⟨n - 2, ?_⟩
    have he : n - 2 + 1 = n - 1 := by omega
    rw [he]
    exact hxl
  set k0 := Nat.find hex with hk0def
  have hk0P : x ≤ lats.getD (k0 + 1) 0 := Nat.find_spec hex
  have hk0le : k0 ≤ n - 2 := by
    apply Nat.find_le
    have he : n - 2 + 1 = n - 1 := by omega
    rw [he]
    exact hxl
  have hk0lt : k0 < n - 1 := by omega
  have hk0min : ∀ j, j < k0 → lats.getD (j + 1) 0 < x := by
    intro j hj
    exact not_le.mp (Nat.find_min hex hj)
  have hlow : lats.getD k0 0 ≤ x := by
    cases hk0case : k0 with
    | zero => exact hx0
    | succ m =>
      have hm := hk0min m (by omega)
      exact le_of_lt hm
  have hclk0 : max (lats.getD k0 0) (min x (lats.getD (k0 + 1) 0)) = x := by
    rw [min_eq_left hk0P, max_eq_right hlow]
  have hd0 : segPointDist coords x lam k0 = 0 := by
    rw [hsegdist k0 hk0lt, hclk0]
    simp
  have hdnn : ∀ j, j < n - 1 → 0 ≤ segPointDist coords x lam j := by
    intro j hj
    rw [hsegdist j hj]
    positivity
  have hdpos : ∀ j, j < k0 → 0 < segPointDist coords x lam j := by
    intro j hj
    have hjlt : j < n - 1 := by omega
    rw [hsegdist j hjlt]
    have hlt := hk0min j hj
    have hj2 : j + 1 < n := by omega
    have hadj : lats.getD j 0 < lats.getD (j + 1) 0 :=
      hmono j (j + 1) (Nat.lt_succ_self j) hj2
    have hclamp : max (lats.getD j 0) (min x (lats.getD (j + 1) 0))
        = lats.getD (j + 1) 0 := by
      rw [min_eq_right hlt.le, max_eq_right hadj.le]
    rw [hclamp]
    have habs2 : |lats.getD (j + 1) 0 - x| = x - lats.getD (j + 1) 0 := by
      rw [abs_sub_comm, abs_of_pos (by linarith)]
    rw [habs2]
    have hxp : 0 < x - lats.getD (j + 1) 0 := by linarith
    exact div_pos (mul_pos (mul_pos hRpos hxp) Real.pi_pos) (by norm_num)
  have hfm : IsFirstMinIdx (segPointDist coords x lam) (n - 1) k0 := by
    refine ⟨hk0lt, ?_, ?_⟩
    · intro j hj
      rw [hd0]
      exact hdnn j hj
    · intro j hj
      rw [hd0]
      exact hdpos j hj
  have hcs : closestSegIdx coords x lam = k0 := by
    have h2 : 2 ≤ coords.length := by rw [hclen]; exact hlen
    have hfm2 := closestSegIdx_isFirstMin coords x lam h2
    rw [hclen] at hfm2
    exact isFirstMinIdx_unique _ _ _ _ hfm2 hfm
  have hseglen : ∀ j, j + 1 < n → segLen coords j
      = earthR * (lats.getD (j + 1) 0 - lats.getD j 0) * Real.pi / 180 := by
    intro j hj
    have hj1 : j < n := by omega
    have hadj : lats.getD j 0 < lats.getD (j + 1) 0 :=
      hmono j (j + 1) (Nat.lt_succ_self j) hj
    rw [segLen, hget j hj1, hget (j + 1) hj]
    rw [haversine_meridian lam _ _
      (absGap _ _ (hvb j hj1).1 (hvb j hj1).2 (hvb (j + 1) hj).1 (hvb (j + 1) hj).2)]
    rw [abs_of_pos (by linarith)]
  have hsum : ∀ k, k ≤ n - 1 → sumSegLens coords k
      = earthR * (lats.getD k 0 - lats.getD 0 0) * Real.pi / 180 := by
    intro k
    induction k with
    | zero =>
      intro _
      simp [sumSegLens]
    | succ m ih =>
      intro hk
      have hstep : sumSegLens coords (m + 1) = sumSegLens coords m + segLen coords m := by
        rw [sumSegLens, sumSegLens, List.range_succ, List.map_append, List.sum_append]
        simp
      rw [hstep, ih (by omega), hseglen m (by omega)]
      ring
  have hprojk0 : segProj coords x lam k0 = (x, lam) := by
    rw [segProj, hget k0 (by omega), hget (k0 + 1) (by omega)]
    rw [projectPointOnSegment_vertical x lam _ _ lam
      (hmono k0 (k0 + 1) (Nat.lt_succ_self _) (by omega))]
    rw [hclk0]
  have hnot : ¬ coords.length < 2 := by rw [hclen]; omega
  simp only [getDistanceAlongRoute, if_neg hnot]
  rw [hcs, hsum k0 (by omega), hget k0 (by omega), hprojk0]
  rw [haversine_meridian lam _ _ (absGap _ _ (hvb k0 (by omega)).1 (hvb k0 (by omega)).2
    hxlow hxhigh)]
  rw [abs_of_nonneg (by linarith)]
  ring

end

/-! ## C7: monotonicity along a straight route

The unrestricted statement — monotonicity over every chart-collinear
route — is false for the source: its haversine formula does not wrap the
longitude difference, so on a collinear constant-latitude route with a
segment spanning more than 180 degrees of longitude the distance from
the segment start shrinks once a forward sample passes the antipode of
the start (counterexample below).  The amended statement proved here
covers the meridian-aligned straight routes (constant longitude,
strictly increasing valid latitudes), for which the haversine geometry
of the source is exact. -/

noncomputable section

open scoped Classical

/-- C7 (amended): along a straight multi-segment route of constant
longitude with strictly increasing valid latitudes, the values of
`getDistanceAlongRoute` at query points sampled strictly forward along
the route are monotonically non-decreasing.  (The claim as stated, over
every chart-collinear route, is refuted by the counterexample below.) -/
theorem getDistanceAlongRoute_monotone_straight_route
    (lam : Real) (lats : List Real) (qs : List Real)
    (hlen : 2 ≤ lats.length)
    (hmono : ∀ i j, i < j → j < lats.length → lats.getD i 0 < lats.getD j 0)
    (hvalid : ∀ i, i < lats.length → |lats.getD i 0| ≤ 90)
    (hq : ∀ i, i < qs.length → lats.getD 0 0 ≤ qs.getD i 0
        ∧ qs.getD i 0 ≤ lats.getD (lats.length - 1) 0)
    (hqmono : ∀ i j, i < j → j < qs.length → qs.getD i 0 < qs.getD j 0) :
    ∀ i j, i < j → j < qs.length →
      getDistanceAlongRoute (lats.map fun a => (a, lam)) (qs.getD i 0) lam
        ≤ getDistanceAlongRoute (lats.map fun a => (a, lam)) (qs.getD j 0) lam := by
  intro i j hij hj
  have hi : i < qs.length := lt_trans hij hj
  rw [getDistanceAlongRoute_meridian lam lats _ hlen hmono hvalid (hq i hi).1 (hq i hi).2,
    getDistanceAlongRoute_meridian lam lats _ hlen hmono hvalid (hq j hj).1 (hq j hj).2]
  have hle : qs.getD i 0 ≤ qs.getD j 0 := (hqmono i j hij hj).le
  have hpi := Real.pi_pos
  have hR : (0 : Real) ≤ earthR := by norm_num [earthR]
  gcongr

/-- Witness for C7: a two-segment meridian route with two forward samples. -/
theorem getDistanceAlongRoute_monotone_straight_route_witness :
    getDistanceAlongRoute ([(0 : Real), 1, 2].map fun a => (a, 5))
        (([0.3, 1.7] : List Real).getD 0 0) 5
      ≤ getDistanceAlongRoute ([(0 : Real), 1, 2].map fun a => (a, 5))
        (([0.3, 1.7] : List Real).getD 1 0) 5 := by
  refine getDistanceAlongRoute_monotone_straight_route 5 [0, 1, 2] [0.3, 1.7]
    (by norm_num) ?_ ?_ ?_ ?_ 0 1 (by norm_num) (by norm_num)
  · intro i j hij hj
    simp only [List.length_cons, List.length_nil] at hj
    interval_cases j <;> interval_cases i <;>
      norm_num [List.getD_cons_succ, List.getD_cons_zero]
  · intro i hi
    simp only [List.length_cons, List.length_nil] at hi
    interval_cases i <;> norm_num [List.getD_cons_succ, List.getD_cons_zero]
  · intro i hi
    simp only [List.length_cons, List.length_nil] at hi
    interval_cases i <;> norm_num [List.getD_cons_succ, List.getD_cons_zero]
  · intro i j hij hj
    simp only [List.length_cons, List.length_nil] at hj
    interval_cases j <;> interval_cases i <;>
      norm_num [List.getD_cons_succ, List.getD_cons_zero]

end

/-! ## C7 counterexample: a collinear route on which the distance regresses

Exact haversine values along the equator mirror the meridian case, except
that a longitude difference beyond 180 degrees folds back: the formula
takes `sin` of half the unwrapped difference, so the computed arc is
`2 pi` minus the difference. -/

noncomputable section

open scoped Classical

/-- `atan2` for a nonnegative first argument is nonnegative. -/
theorem jsAtan2_nonneg (y x : Real) (hy : 0 ≤ y) : 0 ≤ jsAtan2 y x := by
  have hpi := Real.pi_pos
  rw [jsAtan2]
  split_ifs with h1 h2 h3 h4 h5
  · have := Real.arctan_strictMono.monotone (div_nonneg hy h1.le)
    rwa [Real.arctan_zero] at this
  · have := Real.neg_pi_div_two_lt_arctan (y / x)
    linarith
  · exact absurd ⟨h3, hy⟩ h2
  · linarith
  · linarith
  · exact le_refl 0

/-- Haversine distance is never negative. -/
theorem haversine_nonneg (lat1 lng1 lat2 lng2 : Real) :
    0 ≤ haversineDistance lat1 lng1 lat2 lng2 := by
  simp only [haversineDistance]
  refine mul_nonneg (by norm_num [earthR])
    (mul_nonneg (by norm_num) (jsAtan2_nonneg _ _ (Real.sqrt_nonneg _)))

/-- Haversine distance of a point to itself is zero. -/
theorem haversine_self (a b : Real) : haversineDistance a b a b = 0 := by
  simp [haversineDistance, jsAtan2, Real.sqrt_eq_zero]

/-- Haversine distance between two equatorial points whose longitudes
differ by at most 180 degrees: `earthR * |dlng| * pi / 180`. -/
theorem haversine_equator (l1 l2 : Real) (h : |l2 - l1| ≤ 180) :
    haversineDistance 0 l1 0 l2 = earthR * |l2 - l1| * Real.pi / 180 := by
  have hpi := Real.pi_pos
  have habs : |(l2 - l1) * Real.pi / 180 / 2| = |l2 - l1| * Real.pi / 360 := by
    rw [abs_div, abs_div, abs_mul, abs_of_pos hpi]
    norm_num
    ring
  have hle : |(l2 - l1) * Real.pi / 180 / 2| ≤ Real.pi / 2 := by
    rw [habs]
    calc |l2 - l1| * Real.pi / 360 ≤ 180 * Real.pi / 360 := by
          have := mul_le_mul_of_nonneg_right h hpi.le
          linarith
      _ = Real.pi / 2 := by ring
  simp only [haversineDistance, sub_self, zero_mul, zero_div, Real.sin_zero,
    mul_zero, Real.cos_zero, one_mul, zero_add]
  rw [jsAtan2_sin_sq _ hle, habs]
  ring

/-- Haversine distance between two equatorial points whose longitudes
differ by 180 to 360 degrees: the formula does not wrap the difference,
so the computed arc is the reflex complement `360 - dlng`. -/
theorem haversine_equator_reflex (l1 l2 : Real)
    (h1 : 180 ≤ l2 - l1) (h2 : l2 - l1 ≤ 360) :
    haversineDistance 0 l1 0 l2
      = earthR * (360 - (l2 - l1)) * Real.pi / 180 := by
  have hpi := Real.pi_pos
  simp only [haversineDistance, sub_self, zero_mul, zero_div, Real.sin_zero,
    mul_zero, Real.cos_zero, one_mul, zero_add]
  have hu : (l2 - l1) * Real.pi / 180 / 2
      = Real.pi - (360 - (l2 - l1)) * Real.pi / 360 := by ring
  have hsin : Real.sin ((l2 - l1) * Real.pi / 180 / 2)
      = Real.sin ((360 - (l2 - l1)) * Real.pi / 360) := by
    rw [hu, Real.sin_pi_sub]
  rw [hsin]
  have hsnn : 0 ≤ (360 - (l2 - l1)) * Real.pi / 360 :=
    div_nonneg (mul_nonneg (by linarith) hpi.le) (by norm_num)
  have habs2 : |(360 - (l2 - l1)) * Real.pi / 360| ≤ Real.pi / 2 := by
    rw [abs_of_nonneg hsnn]
    have hh : (360 - (l2 - l1)) * Real.pi ≤ 180 * Real.pi :=
      mul_le_mul_of_nonneg_right (by linarith) hpi.le
    linarith
  rw [jsAtan2_sin_sq _ habs2, abs_of_nonneg hsnn]
  ring

/-- Projection onto a horizontal (constant-latitude) segment clamps the
longitude into the segment's longitude interval. -/
theorem projectPointOnSegment_horizontal (x y p q : Real) (hpq : p < q) :
    projectPointOnSegment x y x p x q = (x, max p (min y q)) := by
  have hqp : (0 : Real) < q - p := by linarith
  have hlen2 : ¬ ((q - p) * (q - p) = 0) := ne_of_gt (mul_pos hqp hqp)
  simp only [projectPointOnSegment, sub_self, mul_zero, zero_mul, add_zero, zero_add]
  rw [if_neg hlen2]
  have hdiv : (y - p) * (q - p) / ((q - p) * (q - p)) = (y - p) / (q - p) :=
    mul_div_mul_right _ _ (ne_of_gt hqp)
  rw [hdiv]
  refine Prod.ext rfl ?_
  show p + max 0 (min 1 ((y - p) / (q - p))) * (q - p) = max p (min y q)
  rcases le_total y p with h1 | h1
  · have hv : (y - p) / (q - p) ≤ 0 :=
      div_nonpos_of_nonpos_of_nonneg (by linarith) hqp.le
    rw [min_eq_right (by linarith : (y - p) / (q - p) ≤ 1), max_eq_left hv,
      zero_mul, add_zero, min_eq_left (by linarith : y ≤ q), max_eq_left h1]
  · rcases le_total y q with h2 | h2
    · have hv0 : 0 ≤ (y - p) / (q - p) := div_nonneg (by linarith) hqp.le
      have hv1 : (y - p) / (q - p) ≤ 1 := (div_le_one hqp).mpr (by linarith)
      rw [min_eq_right hv1, max_eq_right hv0, div_mul_cancel₀ _ (ne_of_gt hqp),
        min_eq_left h2, max_eq_right h1]
      ring
    · have hv1 : 1 ≤ (y - p) / (q - p) := (one_le_div hqp).mpr (by linarith)
      rw [min_eq_left hv1, max_eq_right zero_le_one, one_mul,
        min_eq_right h2, max_eq_right hpq.le]
      ring

/-- Chart-collinear equatorial route whose first segment spans 350
degrees of longitude. -/
def routeC7X : List (Real × Real) := [(0, -180), (0, 170), (0, 180)]

/-- C7 counterexample: the claim fails as stated.  The three-point route
`[(0,-180), (0,170), (0,180)]` is chart-collinear (constant latitude)
with strictly advancing vertex longitudes, and the query points `(0,0)`
and `(0,90)` lie on its first segment (each equals its own clamped
projection) in strictly forward order; yet `getDistanceAlongRoute`
strictly decreases between them, because the haversine formula does not
wrap the longitude difference: past the antipode of the route start the
distance from the start shrinks (`earthR * pi` at longitude 0 versus
`earthR * pi / 2` at longitude 90). -/
theorem getDistanceAlongRoute_not_monotone_collinear :
    (∀ q ∈ routeC7X, q.1 = 0)
    ∧ (routeC7X.getD 0 (0, 0)).2 < (routeC7X.getD 1 (0, 0)).2
    ∧ (routeC7X.getD 1 (0, 0)).2 < (routeC7X.getD 2 (0, 0)).2
    ∧ segProj routeC7X 0 0 0 = (0, 0)
    ∧ segProj routeC7X 0 90 0 = (0, 90)
    ∧ (segProj routeC7X 0 0 0).2 < (segProj routeC7X 0 90 0).2
    ∧ getDistanceAlongRoute routeC7X 0 0 = earthR * Real.pi
    ∧ getDistanceAlongRoute routeC7X 0 90 = earthR * Real.pi / 2
    ∧ getDistanceAlongRoute routeC7X 0 90 < getDistanceAlongRoute routeC7X 0 0 := by
  have hg0 : routeC7X.getD 0 (0, 0) = ((0 : Real), -180) := rfl
  have hg1 : routeC7X.getD 1 (0, 0) = ((0 : Real), 170) := rfl
  have hg2 : routeC7X.getD 2 (0, 0) = ((0 : Real), 180) := rfl
  have hp1 : segProj routeC7X 0 0 0 = ((0 : Real), 0) := by
    rw [segProj, hg0, hg1]
    show projectPointOnSegment 0 0 0 (-180) 0 170 = ((0 : Real), 0)
    rw [projectPointOnSegment_horizontal 0 0 (-180) 170 (by norm_num)]
    rw [min_eq_left (by norm_num : (0 : Real) ≤ 170),
      max_eq_right (by norm_num : (-180 : Real) ≤ 0)]
  have hp2 : segProj routeC7X 0 90 0 = ((0 : Real), 90) := by
    rw [segProj, hg0, hg1]
    show projectPointOnSegment 0 90 0 (-180) 0 170 = ((0 : Real), 90)
    rw [projectPointOnSegment_horizontal 0 90 (-180) 170 (by norm_num)]
    rw [min_eq_left (by norm_num : (90 : Real) ≤ 170),
      max_eq_right (by norm_num : (-180 : Real) ≤ 90)]
  have h2 : 2 ≤ routeC7X.length := by norm_num [routeC7X]
  have hlenm : routeC7X.length - 1 = 2 := by norm_num [routeC7X]
  have hnn0 : ∀ j, 0 ≤ segPointDist routeC7X 0 0 j := by
    intro j
    rw [segPointDist]
    exact haversine_nonneg _ _ _ _
  have hnn90 : ∀ j, 0 ≤ segPointDist routeC7X 0 90 j := by
    intro j
    rw [segPointDist]
    exact haversine_nonneg _ _ _ _
  have hf00 : segPointDist routeC7X 0 0 0 = 0 := by
    rw [segPointDist, hp1]
    exact haversine_self 0 0
  have hf900 : segPointDist routeC7X 0 90 0 = 0 := by
    rw [segPointDist, hp2]
    exact haversine_self 0 90
  have hcs0 : closestSegIdx routeC7X 0 0 = 0 := by
    have hfm := closestSegIdx_isFirstMin routeC7X 0 0 h2
    rw [hlenm] at hfm
    exact isFirstMinIdx_unique _ 2 _ 0 hfm
      ⟨by norm_num, fun j hj => by rw [hf00]; exact hnn0 j,
        fun j hj => absurd hj (Nat.not_lt_zero j)⟩
  have hcs90 : closestSegIdx routeC7X 0 90 = 0 := by
    have hfm := closestSegIdx_isFirstMin routeC7X 0 90 h2
    rw [hlenm] at hfm
    exact isFirstMinIdx_unique _ 2 _ 0 hfm
      ⟨by norm_num, fun j hj => by rw [hf900]; exact hnn90 j,
        fun j hj => absurd hj (Nat.not_lt_zero j)⟩
  have hnotlt : ¬ routeC7X.length < 2 := by norm_num [routeC7X]
  have hsum0 : sumSegLens routeC7X 0 = 0 := by simp [sumSegLens]
  have hd1 : getDistanceAlongRoute routeC7X 0 0 = earthR * Real.pi := by
    simp only [getDistanceAlongRoute, if_neg hnotlt]
    rw [hcs0, hg0, hp1, hsum0, zero_add]
    show haversineDistance 0 (-180) 0 0 = earthR * Real.pi
    rw [haversine_equator (-180) 0 (by norm_num [abs_le])]
    have habs : |(0 : Real) - -180| = 180 := by
      rw [show ((0 : Real) - -180) = 180 by norm_num]
      exact abs_of_nonneg (by norm_num)
    rw [habs]
    ring
  have hd2 : getDistanceAlongRoute routeC7X 0 90 = earthR * Real.pi / 2 := by
    simp only [getDistanceAlongRoute, if_neg hnotlt]
    rw [hcs90, hg0, hp2, hsum0, zero_add]
    show haversineDistance 0 (-180) 0 90 = earthR * Real.pi / 2
    rw [haversine_equator_reflex (-180) 90 (by norm_num) (by norm_num)]
    rw [show (360 : Real) - (90 - -180) = 90 by norm_num]
    ring
  have hE : (0 : Real) < earthR := by norm_num [earthR]
  refine ⟨?_, ?_, ?_, hp1, hp2, ?_, hd1, hd2, ?_⟩
  · intro q hq
    simp only [routeC7X, List.mem_cons, List.not_mem_nil, or_false] at hq
    rcases hq with rfl | rfl | rfl <;> rfl
  · rw [hg0, hg1]
    show (-180 : Real) < 170
    norm_num
  · rw [hg1, hg2]
    show (170 : Real) < 180
    norm_num
  · rw [hp1, hp2]
    show (0 : Real) < 90
    norm_num
  · rw [hd1, hd2]
    have := mul_pos hE Real.pi_pos
    linarith

end

/-! ## C2: the stop loop selects the minimal admissible delta -/

noncomputable section

open scoped Classical

/-- Characterization of the stop loop from a state that already holds a
candidate with delta `d`: either a strictly better admissible stop is
selected (and its delta is minimal among the admissible ones), or the
state is unchanged and no stop beats `d`. -/
theorem stopFold_min_from_some (coords : List (Real × Real)) (vd : Real) :
    ∀ (stops : List StopPoint),
      (∀ st ∈ stops, numTruthy (effLat st) = true ∧ numTruthy (effLng st) = true) →
      ∀ (nm : String) (d : Real),
        (∃ st ∈ stops,
            getDistanceAlongRoute coords ((effLat st).getD 0) ((effLng st).getD 0) - vd > -0.1
            ∧ getDistanceAlongRoute coords ((effLat st).getD 0) ((effLng st).getD 0) - vd < d
            ∧ stops.foldl (stopStep coords vd) (some nm, some d)
                = (some (stopDisplayName st),
                    some (getDistanceAlongRoute coords ((effLat st).getD 0)
                      ((effLng st).getD 0) - vd))
            ∧ ∀ st2 ∈ stops,
                getDistanceAlongRoute coords ((effLat st2).getD 0) ((effLng st2).getD 0) - vd
                  > -0.1 →
                getDistanceAlongRoute coords ((effLat st).getD 0) ((effLng st).getD 0) - vd
                  ≤ getDistanceAlongRoute coords ((effLat st2).getD 0) ((effLng st2).getD 0) - vd)
        ∨ (stops.foldl (stopStep coords vd) (some nm, some d) = (some nm, some d)
            ∧ ∀ st2 ∈ stops,
                getDistanceAlongRoute coords ((effLat st2).getD 0) ((effLng st2).getD 0) - vd
                  > -0.1 →
                d ≤ getDistanceAlongRoute coords ((effLat st2).getD 0) ((effLng st2).getD 0)
                  - vd) := by
  intro stops
  induction stops with
  | nil =>
    intro _ nm d
    right
    exact ⟨rfl, by simp⟩
  | cons st rest ih =>
    intro htruthy nm d
    have hst := htruthy st (List.mem_cons_self _ _)
    have hrest := fun st2 h2 => htruthy st2 (List.mem_cons_of_mem _ h2)
    have hntskip : ¬ (numTruthy (effLat st) = false ∨ numTruthy (effLng st) = false) := by
      rw [hst.1, hst.2]
      simp
    set g := fun st2 : StopPoint =>
      getDistanceAlongRoute coords ((effLat st2).getD 0) ((effLng st2).getD 0) - vd
      with hg
    by_cases hcond : g st > -0.1 ∧ g st < d
    · have hstep : stopStep coords vd (some nm, some d) st
          = (some (stopDisplayName st), some (g st)) := by
        simp only [stopStep, if_neg hntskip]
        rw [if_pos ⟨hcond.1, hcond.2⟩]
      rw [List.foldl_cons, hstep]
      rcases ih hrest (stopDisplayName st) (g st) with
        ⟨st2, hmem, helig2, hlt2, hres, hmin2⟩ | ⟨hres, hmin2⟩
      · left
        refine ⟨st2, List.mem_cons_of_mem _ hmem, helig2, lt_trans hlt2 hcond.2, hres, ?_⟩
        intro st3 hmem3 helig3
        rcases List.mem_cons.mp hmem3 with h3 | h3
        · subst h3
          exact hlt2.le
        · exact hmin2 st3 h3 helig3
      · left
        refine ⟨st, List.mem_cons_self _ _, hcond.1, hcond.2, hres, ?_⟩
        intro st3 hmem3 helig3
        rcases List.mem_cons.mp hmem3 with h3 | h3
        · subst h3
          exact le_refl _
        · exact hmin2 st3 h3 helig3
    · have hstep : stopStep coords vd (some nm, some d) st = (some nm, some d) := by
        simp only [stopStep, if_neg hntskip]
        rw [if_neg]
        intro hc
        exact hcond ⟨hc.1, hc.2⟩
      rw [List.foldl_cons, hstep]
      have hstge : g st > -0.1 → d ≤ g st := by
        intro he
        by_contra hlt
        exact hcond ⟨he, lt_of_not_le hlt⟩
      rcases ih hrest nm d with ⟨st2, hmem, helig2, hlt2, hres, hmin2⟩ | ⟨hres, hmin2⟩
      · left
        refine ⟨st2, List.mem_cons_of_mem _ hmem, helig2, hlt2, hres, ?_⟩
        intro st3 hmem3 helig3
        rcases List.mem_cons.mp hmem3 with h3 | h3
        · subst h3
          exact le_trans hlt2.le (hstge helig3)
        · exact hmin2 st3 h3 helig3
      · right
        refine ⟨hres, ?_⟩
        intro st3 hmem3 helig3
        rcases List.mem_cons.mp hmem3 with h3 | h3
        · subst h3
          exact hstge helig3
        · exact hmin2 st3 h3 helig3

/-- Characterization of the stop loop from the initial state: if some
admissible stop exists, the loop returns an admissible stop of minimal
delta; otherwise the state stays empty. -/
theorem stopFold_min (coords : List (Real × Real)) (vd : Real) :
    ∀ (stops : List StopPoint),
      (∀ st ∈ stops, numTruthy (effLat st) = true ∧ numTruthy (effLng st) = true) →
      (∃ st ∈ stops,
          getDistanceAlongRoute coords ((effLat st).getD 0) ((effLng st).getD 0) - vd > -0.1
          ∧ stops.foldl (stopStep coords vd) (none, none)
              = (some (stopDisplayName st),
                  some (getDistanceAlongRoute coords ((effLat st).getD 0)
                    ((effLng st).getD 0) - vd))
          ∧ ∀ st2 ∈ stops,
              getDistanceAlongRoute coords ((effLat st2).getD 0) ((effLng st2).getD 0) - vd
                > -0.1 →
              getDistanceAlongRoute coords ((effLat st).getD 0) ((effLng st).getD 0) - vd
                ≤ getDistanceAlongRoute coords ((effLat st2).getD 0) ((effLng st2).getD 0) - vd)
      ∨ (stops.foldl (stopStep coords vd) (none, none) = (none, none)
          ∧ ∀ st2 ∈ stops,
              ¬ (getDistanceAlongRoute coords ((effLat st2).getD 0) ((effLng st2).getD 0) - vd
                > -0.1)) := by
  intro stops
  induction stops with
  | nil =>
    intro _
    right
    exact ⟨rfl, by simp⟩
  | cons st rest ih =>
    intro htruthy
    have hst := htruthy st (List.mem_cons_self _ _)
    have hrest := fun st2 h2 => htruthy st2 (List.mem_cons_of_mem _ h2)
    have hntskip : ¬ (numTruthy (effLat st) = false ∨ numTruthy (effLng st) = false) := by
      rw [hst.1, hst.2]
      simp
    set g := fun st2 : StopPoint =>
      getDistanceAlongRoute coords ((effLat st2).getD 0) ((effLng st2).getD 0) - vd
      with hg
    by_cases helig : g st > -0.1
    · have hstep : stopStep coords vd (none, none) st
          = (some (stopDisplayName st), some (g st)) := by
        simp only [stopStep, if_neg hntskip]
        rw [if_pos ⟨helig, trivial⟩]
      rw [List.foldl_cons, hstep]
      rcases stopFold_min_from_some coords vd rest hrest (stopDisplayName st) (g st) with
        ⟨st2, hmem, helig2, hlt2, hres, hmin2⟩ | ⟨hres, hmin2⟩
      · left
        refine ⟨st2, List.mem_cons_of_mem _ hmem, helig2, hres, ?_⟩
        intro st3 hmem3 helig3
        rcases List.mem_cons.mp hmem3 with h3 | h3
        · subst h3
          exact hlt2.le
        · exact hmin2 st3 h3 helig3
      · left
        refine ⟨st, List.mem_cons_self _ _, helig, hres, ?_⟩
        intro st3 hmem3 helig3
        rcases List.mem_cons.mp hmem3 with h3 | h3
        · subst h3
          exact le_refl _
        · exact hmin2 st3 h3 helig3
    · have hstep : stopStep coords vd (none, none) st = (none, none) := by
        simp only [stopStep, if_neg hntskip]
        rw [if_neg]
        intro hc
        exact helig hc.1
      rw [List.foldl_cons, hstep]
      rcases ih hrest with ⟨st2, hmem, helig2, hres, hmin2⟩ | ⟨hres, hall⟩
      · left
        refine ⟨st2, List.mem_cons_of_mem _ hmem, helig2, hres, ?_⟩
        intro st3 hmem3 helig3
        rcases List.mem_cons.mp hmem3 with h3 | h3
        · subst h3
          exact absurd helig3 helig
        · exact hmin2 st3 h3 helig3
      · right
        refine ⟨hres, ?_⟩
        intro st3 hmem3
        rcases List.mem_cons.mp hmem3 with h3 | h3
        · subst h3
          exact helig
        · exact hall st3 h3

/-- C2: with at least two geometry points, a non-empty stop list all of
whose stops carry usable coordinates, and at least one stop of delta above
the tolerance, `calculateNextStop` returns the display name of a stop
whose delta `stopDist - vehicleDist` is above `-0.1` km and minimal among
all stops above that tolerance. -/
theorem calculateNextStop_selects_min_delta
    (v : Vehicle) (rd : RouteData) (d : String) (dir : DirData) (stops : List StopPoint)
    (hlt : dirIdx d < (dirList rd).length)
    (hget : (dirList rd).getD (dirIdx d) defaultDir = dir)
    (hstops : dir.stopPoints = some stops)
    (hne : ¬ stops.length = 0)
    (hgeom : ¬ (routeCoordsOfDir dir).length < 2)
    (htruthy : ∀ st ∈ stops, numTruthy (effLat st) = true ∧ numTruthy (effLng st) = true)
    (helig : ∃ st ∈ stops, stopDelta dir v st > -0.1) :
    ∃ st ∈ stops, calculateNextStop (some v) (some rd) d = some (stopDisplayName st)
      ∧ stopDelta dir v st > -0.1
      ∧ ∀ st2 ∈ stops, stopDelta dir v st2 > -0.1 →
          stopDelta dir v st ≤ stopDelta dir v st2 := by
  simp only [calculateNextStop, if_pos hlt, hget, hstops, hne, if_neg hne,
    if_neg hgeom, if_false]
  rcases stopFold_min (routeCoordsOfDir dir)
      (getDistanceAlongRoute (routeCoordsOfDir dir) v.latitude v.longitude)
      stops htruthy with ⟨st, hmem, helig1, hres, hmin⟩ | ⟨_, hall⟩
  · refine ⟨st, hmem, ?_, helig1, hmin⟩
    rw [hres]
  · exfalso
    obtain ⟨st0, hmem0, h0⟩ := helig
    exact hall st0 hmem0 h0

end

/-! ## C2 witness: stops at progress 0, 1, 2 km and a vehicle at 0.95 km -/

noncomputable section

open scoped Classical

/-- Latitude increment corresponding to exactly one kilometer of meridian
arc: `earthR * uKm * pi / 180 = 1`. -/
def uKm : Real := 180 / (earthR * Real.pi)

/-- Stop at progress 0 km. -/
def stopA : StopPoint := ⟨some uKm, some 1, none, none, some "A", none⟩

/-- Stop at progress 1 km. -/
def stopB : StopPoint := ⟨some (2 * uKm), some 1, none, none, some "B", none⟩

/-- Stop at progress 2 km. -/
def stopC : StopPoint := ⟨some (3 * uKm), some 1, none, none, some "C", none⟩

/-- Direction with a meridian route from latitude `uKm` to `4 * uKm` at
longitude 1, carrying the three stops. -/
def dirW : DirData :=
  ⟨some [stopA, stopB, stopC], none, some [(1, uKm), (1, 4 * uKm)]⟩

/-- Route data wrapping `dirW`. -/
def rdW : RouteData := ⟨some [dirW], dirW⟩

/-- Vehicle at progress 0.95 km along the route of `dirW`. -/
def vW : Vehicle :=
  ⟨"veh2", 1.95 * uKm, 1, 0, "e1000f", "C2", "Terminus", "outward", "lineC2"⟩

theorem uKm_pos : 0 < uKm := by
  have hpi := Real.pi_pos
  have hR : (0 : Real) < earthR := by norm_num [earthR]
  exact div_pos (by norm_num) (mul_pos hR hpi)

theorem uKm_le_one : uKm ≤ 1 := by
  have hpi := Real.pi_gt_three
  have hR : (0 : Real) < earthR * Real.pi := by
    have := Real.pi_pos
    have hR0 : (0 : Real) < earthR := by norm_num [earthR]
    positivity
  rw [uKm, div_le_one hR]
  norm_num [earthR]
  nlinarith [Real.pi_gt_three]

theorem uKm_key : earthR * uKm * Real.pi / 180 = 1 := by
  have hpi := Real.pi_ne_zero
  have hR : (earthR : Real) ≠ 0 := by norm_num [earthR]
  rw [uKm]
  field_simp
  ring

/-- Distance along the witness route from its start, for on-route points. -/
theorem distW (x : Real) (h1 : uKm ≤ x) (h2 : x ≤ 4 * uKm) :
    getDistanceAlongRoute (routeCoordsOfDir dirW) x 1
      = earthR * (x - uKm) * Real.pi / 180 := by
  have hu := uKm_pos
  have hu1 := uKm_le_one
  have hroute : routeCoordsOfDir dirW = [uKm, 4 * uKm].map fun a => (a, (1 : Real)) := by
    simp [routeCoordsOfDir, dirW, geomCoords]
  rw [hroute]
  have h := getDistanceAlongRoute_meridian 1 [uKm, 4 * uKm] x (by norm_num)
    (by
      intro i j hij hj
      simp only [List.length_cons, List.length_nil] at hj
      interval_cases j <;> interval_cases i <;>
        norm_num [List.getD_cons_succ, List.getD_cons_zero] <;> nlinarith)
    (by
      intro i hi
      simp only [List.length_cons, List.length_nil] at hi
      interval_cases i <;>
        norm_num [List.getD_cons_succ, List.getD_cons_zero, abs_le] <;>
        constructor <;> nlinarith)
    (by
      norm_num [List.getD_cons_zero]
      exact h1)
    (by
      norm_num [List.getD_cons_succ, List.getD_cons_zero]
      exact h2)
  rw [h]
  norm_num [List.getD_cons_zero]

/-- Witness for C2: with stops at progress 0 km, 1 km and 2 km and the
vehicle at 0.95 km, the stop at 1 km is returned. -/
theorem calculateNextStop_selects_min_delta_witness :
    calculateNextStop (some vW) (some rdW) "outward" = some "B" := by
  have hu := uKm_pos
  have hu1 := uKm_le_one
  have hdA : stopDelta dirW vW stopA = 0 - 0.95 := by
    rw [stopDelta, stopDistOf, vehicleDistOf]
    have e1 : (effLat stopA).getD 0 = uKm := rfl
    have e2 : (effLng stopA).getD 0 = (1 : Real) := rfl
    rw [e1, e2]
    rw [show vW.latitude = 1.95 * uKm from rfl, show vW.longitude = (1 : Real) from rfl]
    rw [distW uKm le_rfl (by nlinarith), distW (1.95 * uKm) (by nlinarith) (by nlinarith)]
    have hk := uKm_key
    have expand1 : earthR * (uKm - uKm) * Real.pi / 180 = 0 := by
      rw [sub_self]
      ring
    have expand2 : earthR * (1.95 * uKm - uKm) * Real.pi / 180
        = 0.95 * (earthR * uKm * Real.pi / 180) := by ring
    rw [expand1, expand2, hk]
    norm_num
  have hdB : stopDelta dirW vW stopB = 1 - 0.95 := by
    rw [stopDelta, stopDistOf, vehicleDistOf]
    have e1 : (effLat stopB).getD 0 = 2 * uKm := rfl
    have e2 : (effLng stopB).getD 0 = (1 : Real) := rfl
    rw [e1, e2]
    rw [show vW.latitude = 1.95 * uKm from rfl, show vW.longitude = (1 : Real) from rfl]
    rw [distW (2 * uKm) (by nlinarith) (by nlinarith),
      distW (1.95 * uKm) (by nlinarith) (by nlinarith)]
    have hk := uKm_key
    have expand1 : earthR * (2 * uKm - uKm) * Real.pi / 180
        = earthR * uKm * Real.pi / 180 := by ring
    have expand2 : earthR * (1.95 * uKm - uKm) * Real.pi / 180
        = 0.95 * (earthR * uKm * Real.pi / 180) := by ring
    rw [expand1, expand2, hk]
    norm_num
  have hdC : stopDelta dirW vW stopC = 2 - 0.95 := by
    rw [stopDelta, stopDistOf, vehicleDistOf]
    have e1 : (effLat stopC).getD 0 = 3 * uKm := rfl
    have e2 : (effLng stopC).getD 0 = (1 : Real) := rfl
    rw [e1, e2]
    rw [show vW.latitude = 1.95 * uKm from rfl, show vW.longitude = (1 : Real) from rfl]
    rw [distW (3 * uKm) (by nlinarith) (by nlinarith),
      distW (1.95 * uKm) (by nlinarith) (by nlinarith)]
    have hk := uKm_key
    have expand1 : earthR * (3 * uKm - uKm) * Real.pi / 180
        = 2 * (earthR * uKm * Real.pi / 180) := by ring
    have expand2 : earthR * (1.95 * uKm - uKm) * Real.pi / 180
        = 0.95 * (earthR * uKm * Real.pi / 180) := by ring
    rw [expand1, expand2, hk]
    norm_num
  have hone : numTruthy (some (1 : Real)) = true := by
    simp only [numTruthy]
    rw [if_neg (by norm_num : (1 : Real) ≠ 0)]
  have hlatA : numTruthy (effLat stopA) = true := by
    show numTruthy (some uKm) = true
    simp only [numTruthy]
    rw [if_neg (ne_of_gt hu)]
  have hlatB : numTruthy (effLat stopB) = true := by
    show numTruthy (some (2 * uKm)) = true
    simp only [numTruthy]
    rw [if_neg (by nlinarith : (2 * uKm : Real) ≠ 0)]
  have hlatC : numTruthy (effLat stopC) = true := by
    show numTruthy (some (3 * uKm)) = true
    simp only [numTruthy]
    rw [if_neg (by nlinarith : (3 * uKm : Real) ≠ 0)]
  have htruthy : ∀ st ∈ [stopA, stopB, stopC],
      numTruthy (effLat st) = true ∧ numTruthy (effLng st) = true := by
    intro st hst
    simp only [List.mem_cons, List.not_mem_nil, or_false] at hst
    rcases hst with h | h | h
    · subst h; exact ⟨hlatA, hone⟩
    · subst h; exact ⟨hlatB, hone⟩
    · subst h; exact ⟨hlatC, hone⟩
  have hroute2 : routeCoordsOfDir dirW = [(uKm, 1), (4 * uKm, 1)] := by
    simp [routeCoordsOfDir, dirW, geomCoords]
  obtain ⟨st, hmem, hres, helig2, hmin⟩ :=
    calculateNextStop_selects_min_delta vW rdW "outward" dirW [stopA, stopB, stopC]
      (by simp [dirIdx, dirList, rdW])
      rfl
      rfl
      (by norm_num)
      (by rw [hroute2]; norm_num)
      htruthy
      ⟨stopB, by simp, by rw [hdB]; norm_num⟩
  simp only [List.mem_cons, List.not_mem_nil, or_false] at hmem
  rcases hmem with h | h | h
  · subst h
    rw [hdA] at helig2
    norm_num at helig2
  · subst h
    rw [hres]
    rfl
  · subst h
    have hcb := hmin stopB (by simp) (by rw [hdB]; norm_num)
    rw [hdB, hdC] at hcb
    norm_num at hcb

end

/-! ## C1: segment concatenation in the next-stop distance math

`calculateNextStop` decodes an array of shape strings with `flatMap`,
concatenating the disjoint segments into one coordinate sequence before
`getDistanceAlongRoute` is applied.  The cumulative distance therefore
contains the haversine length of the straight edge joining the end of one
segment to the start of the next. -/

noncomputable section

open scoped Classical

/-- First encoded segment: decodes to `[(0, 0.001), (0.001, 0.001)]`. -/
def s1W : String := "?gEgE?"

/-- Second encoded segment (disjoint from the first): decodes to
`[(0.01, 0.001), (0.011, 0.001)]`. -/
def s2W : String := "o\x7d@gEgE?"

/-- Direction whose geometry is delivered as two disjoint encoded
segments. -/
def dirC1 : DirData := ⟨none, some (Shapes.many [some s1W, some s2W]), none⟩

/-- C1 (refuting evidence): the decoding block of `calculateNextStop`
concatenates the two decoded segments, and the distance-along-route value
at a point on the second segment equals the per-segment distance (full
first segment plus progress within the second) PLUS the haversine length
of the straight edge joining the segments, which is strictly positive
(about one kilometer here). -/
theorem nextStop_concatenates_segments_teleport_edge :
    routeCoordsOfDir dirC1 = decodePolyline s1W ++ decodePolyline s2W
    ∧ 0 < haversineDistance 0.001 0.001 0.01 0.001
    ∧ getDistanceAlongRoute (routeCoordsOfDir dirC1) 0.0105 0.001
        = (segLen (decodePolyline s1W) 0
            + getDistanceAlongRoute (decodePolyline s2W) 0.0105 0.001)
          + haversineDistance 0.001 0.001 0.01 0.001 := by
  have hdec1 : decodePolylineInt s1W = [(0, 100), (100, 100)] := by decide
  have hdec2 : decodePolylineInt s2W = [(1000, 100), (1100, 100)] := by decide
  have hdec1R : decodePolyline s1W = [((0 : Real), 0.001), (0.001, 0.001)] := by
    rw [decodePolyline, hdec1]
    norm_num
  have hdec2R : decodePolyline s2W = [((0.01 : Real), 0.001), (0.011, 0.001)] := by
    rw [decodePolyline, hdec2]
    norm_num
  have hroute : routeCoordsOfDir dirC1 = decodePolyline s1W ++ decodePolyline s2W := by
    simp [routeCoordsOfDir, dirC1]
  have hjoin : haversineDistance 0.001 0.001 0.01 0.001
      = earthR * 0.009 * Real.pi / 180 := by
    have h := haversine_meridian 0.001 0.001 0.01 (by norm_num [abs_le])
    rw [h, abs_of_nonneg (show (0 : Real) ≤ 0.01 - 0.001 by norm_num)]
    norm_num
  have hjoinpos : 0 < haversineDistance 0.001 0.001 0.01 0.001 := by
    rw [hjoin]
    have := Real.pi_pos
    have hR : (0 : Real) < earthR := by norm_num [earthR]
    positivity
  refine ⟨hroute, hjoinpos, ?_⟩
  have hlist : routeCoordsOfDir dirC1
      = [(0 : Real), 0.001, 0.01, 0.011].map fun a => (a, (0.001 : Real)) := by
    rw [hroute, hdec1R, hdec2R]
    rfl
  have hmain : getDistanceAlongRoute (routeCoordsOfDir dirC1) 0.0105 0.001
      = earthR * 0.0105 * Real.pi / 180 := by
    rw [hlist]
    have h := getDistanceAlongRoute_meridian 0.001 [0, 0.001, 0.01, 0.011] 0.0105
      (by norm_num)
      (by
        intro i j hij hj
        simp only [List.length_cons, List.length_nil] at hj
        interval_cases j <;> interval_cases i <;>
          norm_num [List.getD_cons_succ, List.getD_cons_zero])
      (by
        intro i hi
        simp only [List.length_cons, List.length_nil] at hi
        interval_cases i <;>
          norm_num [List.getD_cons_succ, List.getD_cons_zero, abs_le])
      (by norm_num [List.getD_cons_zero])
      (by norm_num [List.getD_cons_succ, List.getD_cons_zero])
    rw [h]
    norm_num [List.getD_cons_zero]
  have hseg2 : getDistanceAlongRoute (decodePolyline s2W) 0.0105 0.001
      = earthR * 0.0005 * Real.pi / 180 := by
    rw [hdec2R]
    have hmap : [((0.01 : Real), 0.001), (0.011, 0.001)]
        = [(0.01 : Real), 0.011].map fun a => (a, (0.001 : Real)) := rfl
    rw [hmap]
    have h := getDistanceAlongRoute_meridian 0.001 [0.01, 0.011] 0.0105
      (by norm_num)
      (by
        intro i j hij hj
        simp only [List.length_cons, List.length_nil] at hj
        interval_cases j <;> interval_cases i <;>
          norm_num [List.getD_cons_succ, List.getD_cons_zero])
      (by
        intro i hi
        simp only [List.length_cons, List.length_nil] at hi
        interval_cases i <;>
          norm_num [List.getD_cons_succ, List.getD_cons_zero, abs_le])
      (by norm_num [List.getD_cons_zero])
      (by norm_num [List.getD_cons_succ, List.getD_cons_zero])
    rw [h]
    norm_num [List.getD_cons_zero]
  have hseg1 : segLen (decodePolyline s1W) 0 = earthR * 0.001 * Real.pi / 180 := by
    rw [hdec1R, segLen]
    simp only [List.getD_cons_zero, List.getD_cons_succ]
    have h := haversine_meridian 0.001 0 0.001 (by norm_num [abs_le])
    rw [h, abs_of_nonneg (show (0 : Real) ≤ 0.001 - 0 by norm_num)]
    norm_num
  rw [hmain, hseg1, hseg2, hjoin]
  ring

end

/-! ## C8: the source decoder agrees with the specified encoding

Arithmetic facts about the 32-bit embedding, used to relate the bitwise
accumulation of `readVarint` to plain base-32 arithmetic. -/

/-- Disjoint-bit or is addition: if `a` fits below bit `s`, oring in a
multiple of `2 ^ s` is addition. -/
theorem lor_mul_pow : ∀ (s a b : Nat), a < 2 ^ s → Nat.lor a (b * 2 ^ s) = a + b * 2 ^ s := by
  intro s
  induction s with
  | zero =>
    intro a b ha
    interval_cases a
    simp only [pow_zero, mul_one, Nat.zero_add]
    exact Nat.zero_or b
  | succ t ih =>
    intro a b ha
    have hdiv : a / 2 < 2 ^ t := by
      have hp : 2 ^ (t + 1) = 2 ^ t * 2 := pow_succ 2 t
      omega
    have ha2 : a = 2 * a.div2 + a.bodd.toNat := by
      conv_lhs => rw [← Nat.bit_decomp a]
      rw [Nat.bit_val]
    have hdiv2 : a.div2 = a / 2 := Nat.div2_val a
    have hb : b * 2 ^ (t + 1) = Nat.bit false (b * 2 ^ t) := by
      rw [Nat.bit_val, pow_succ]
      ring_nf
      simp [Nat.add_comm]
    calc Nat.lor a (b * 2 ^ (t + 1))
        = Nat.lor (Nat.bit a.bodd a.div2) (Nat.bit false (b * 2 ^ t)) := by
          rw [Nat.bit_decomp, ← hb]
      _ = Nat.bit (a.bodd || false) (Nat.lor a.div2 (b * 2 ^ t)) := Nat.lor_bit _ _ _ _
      _ = Nat.bit a.bodd (a / 2 + b * 2 ^ t) := by
          rw [Bool.or_false, hdiv2, ih (a / 2) b hdiv]
      _ = a + b * 2 ^ (t + 1) := by
          rw [Nat.bit_val]
          have hpow : b * 2 ^ (t + 1) = 2 * (b * 2 ^ t) := by
            rw [pow_succ]
            ring
          rw [hpow]
          omega

/-- `land` with 31 on small values is reduction mod 32. -/
theorem land31 (g : Nat) (h : g < 64) : Nat.land g 31 = g % 32 := by
  interval_cases g <;> rfl

/-- `Int.emod` is the `%` of the integers. -/
theorem emod_eq_mod (a b : Int) : a.emod b = a % b := rfl

/-- `toUInt32` is the identity on small naturals. -/
theorem toUInt32_coe (v : Nat) (h : v < 4294967296) : toUInt32 ((v : Nat) : Int) = v := by
  simp only [toUInt32, emod_eq_mod]
  omega

/-- `toInt32` is the identity on naturals below `2^31`. -/
theorem toInt32_coe (v : Nat) (h : v < 2147483648) : toInt32 ((v : Nat) : Int) = v := by
  simp only [toInt32, emod_eq_mod]
  split <;> omega

/-- The masked payload of one group. -/
theorem jsAnd_byte31 (byte : Int) (h0 : 0 ≤ byte) (h63 : byte ≤ 63) :
    jsAnd byte 31 = ((byte.toNat % 32 : Nat) : Int) := by
  rw [jsAnd]
  have h1 : toUInt32 byte = byte.toNat := by
    simp only [toUInt32, emod_eq_mod]
    omega
  have h2 : toUInt32 31 = 31 := rfl
  rw [h1, h2, land31 byte.toNat (by omega)]
  exact toInt32_coe _ (by omega)

/-- Shifting a 5-bit payload left by at most 25 bits. -/
theorem jsShl_small (p s : Nat) (hp : p < 32) (hs : s ≤ 25) :
    jsShl ((p : Nat) : Int) s = ((p * 2 ^ s : Nat) : Int) := by
  rw [jsShl, toUInt32_coe p (by omega)]
  rw [Nat.mod_eq_of_lt (by omega : s < 32), Nat.shiftLeft_eq]
  have h2s : 2 ^ s ≤ 2 ^ 25 := Nat.pow_le_pow_right (by norm_num) hs
  have hb : p * 2 ^ s < 2147483648 := by
    calc p * 2 ^ s ≤ 31 * 2 ^ 25 := Nat.mul_le_mul (by omega) h2s
      _ < 2147483648 := by norm_num
  exact toInt32_coe _ hb

/-- Oring a shifted payload into a partial accumulator is addition. -/
theorem jsOr_acc (res p s : Nat) (hres : res < 2 ^ s) (hp : p < 32) (hs : s ≤ 25) :
    jsOr ((res : Nat) : Int) ((p * 2 ^ s : Nat) : Int)
      = ((res + p * 2 ^ s : Nat) : Int) := by
  have h2s : 2 ^ s ≤ 2 ^ 25 := Nat.pow_le_pow_right (by norm_num) hs
  have hp2 : p * 2 ^ s ≤ 31 * 2 ^ 25 := Nat.mul_le_mul (by omega) h2s
  rw [jsOr, toUInt32_coe res (by omega), toUInt32_coe _ (by omega)]
  rw [lor_mul_pow s res p hres]
  exact toInt32_coe _ (by omega)

/-- Oring zero normalizes a small accumulator to itself. -/
theorem jsOr_zero_right (res : Nat) (h : res < 2147483648) :
    jsOr ((res : Nat) : Int) 0 = ((res : Nat) : Int) := by
  rw [jsOr, toUInt32_coe res (by omega)]
  have h0 : toUInt32 0 = 0 := rfl
  rw [h0, show Nat.lor res 0 = res from Nat.or_zero res]
  exact toInt32_coe res h

/-- Floor division of a natural by two, in the integers. -/
theorem fdiv_coe_two (v : Nat) : Int.fdiv ((v : Nat) : Int) 2 = ((v / 2 : Nat) : Int) := by
  cases v with
  | zero => rfl
  | succ k => rfl

/-- `jsShrA` by one on naturals below `2^31` is halving. -/
theorem jsShrA_coe (v : Nat) (h : v < 2147483648) :
    jsShrA ((v : Nat) : Int) 1 = ((v / 2 : Nat) : Int) := by
  rw [jsShrA, toInt32_coe v h]
  norm_num
  exact fdiv_coe_two v

/-- `jsNot` on small naturals is integer complement. -/
theorem jsNot_coe (x : Nat) (h : x < 1073741824) :
    jsNot ((x : Nat) : Int) = -((x : Nat) : Int) - 1 := by
  rw [jsNot, toInt32_coe x (by omega)]
  simp only [toInt32]
  have h1 : (-1 - ((x : Nat) : Int)).emod 4294967296 = 4294967296 - 1 - x := by
    rw [emod_eq_mod]
    omega
  rw [h1, if_neg (by omega)]
  omega

/-- The zig-zag branch of the decoder agrees with `specZigzag`. -/
theorem zigzag_decode (v : Nat) (h : v < 1073741824) :
    (if jsAnd ((v : Nat) : Int) 1 ≠ 0 then jsNot (jsShrA ((v : Nat) : Int) 1)
      else jsShrA ((v : Nat) : Int) 1) = specZigzag v := by
  have hand : jsAnd ((v : Nat) : Int) 1 = ((v % 2 : Nat) : Int) := by
    rw [jsAnd, toUInt32_coe v (by omega)]
    have h1 : toUInt32 1 = 1 := rfl
    rw [h1]
    have h2 : Nat.land v 1 = v % 2 := Nat.and_one_is_mod v
    rw [h2]
    exact toInt32_coe _ (by omega)
  have hshr : jsShrA ((v : Nat) : Int) 1 = ((v / 2 : Nat) : Int) :=
    jsShrA_coe v (by omega)
  rw [hand, hshr, specZigzag]
  by_cases hpar : v % 2 = 1
  · rw [if_pos (by exact_mod_cast by omega : ((v % 2 : Nat) : Int) ≠ 0), if_pos hpar]
    rw [jsNot_coe (v / 2) (by omega)]
  · rw [if_neg (by
      simp only [ne_eq, not_not]
      exact_mod_cast (by omega : v % 2 = 0)), if_neg hpar]

/-- Values parsed starting at group index `gi` fit in `5 * (6 - gi)` bits. -/
theorem specVarint_bound : ∀ (l : List Int) (gi v : Nat) (r : List Int),
    gi ≤ 5 → specVarint l gi = some (v, r) → v < 2 ^ (5 * (6 - gi)) := by
  intro l
  induction l with
  | nil =>
    intro gi v r _ h
    simp [specVarint] at h
  | cons c rest ih =>
    intro gi v r hgi h
    simp only [specVarint] at h
    by_cases hc : 63 ≤ c ∧ c ≤ 126
    · rw [if_pos hc] at h
      by_cases hcont : 32 ≤ c - 63
      · rw [if_pos hcont] at h
        by_cases hgi5 : 5 ≤ gi
        · rw [if_pos hgi5] at h
          exact absurd h (by simp)
        · rw [if_neg hgi5] at h
          cases hrec : specVarint rest (gi + 1) with
          | none =>
            rw [hrec] at h
            exact absurd h (by simp)
          | some p =>
            obtain ⟨v2, r2⟩ := p
            rw [hrec] at h
            have hv : (c - 63 - 32).toNat + 32 * v2 = v := by
              have := h
              simp only [Option.some.injEq, Prod.mk.injEq] at this
              exact this.1
            have hv2 := ih (gi + 1) v2 r2 (by omega) hrec
            have hpay : (c - 63 - 32).toNat ≤ 31 := by omega
            have hpow : 2 ^ (5 * (6 - gi)) = 32 * 2 ^ (5 * (6 - (gi + 1))) := by
              rw [show 5 * (6 - gi) = 5 * (6 - (gi + 1)) + 5 by omega, pow_add]
              ring
            rw [hpow]
            have h32 : 32 * (v2 + 1) ≤ 32 * 2 ^ (5 * (6 - (gi + 1))) :=
              Nat.mul_le_mul_left 32 hv2
            omega
      · rw [if_neg hcont] at h
        have hv : (c - 63).toNat = v := by
          simp only [Option.some.injEq, Prod.mk.injEq] at h
          exact h.1
        have hvlt : v < 32 := by omega
        have h32 : (32 : Nat) ≤ 2 ^ (5 * (6 - gi)) := by
          calc (32 : Nat) = 2 ^ 5 := by norm_num
            _ ≤ 2 ^ (5 * (6 - gi)) := Nat.pow_le_pow_right (by norm_num) (by omega)
        omega
    · rw [if_neg hc] at h
      exact absurd h (by simp)

/-- The bitwise varint loop of the source computes the base-32 value of the
group run, consuming exactly the run: for a partial accumulator `res`
below bit `5 * gi` and a parse of the remaining groups, the result is
`res + v * 2 ^ (5 * gi)` and the remaining list is the parse remainder. -/
theorem readVarint_spec : ∀ (l : List Int) (gi v : Nat) (r : List Int) (res : Nat),
    gi ≤ 5 → res < 2 ^ (5 * gi) → specVarint l gi = some (v, r) →
    ∃ n, readVarint l (5 * gi) ((res : Nat) : Int)
        = (((res + v * 2 ^ (5 * gi) : Nat) : Int), n)
      ∧ l.drop n = r ∧ 1 ≤ n ∧ n ≤ l.length := by
  intro l
  induction l with
  | nil =>
    intro gi v r res _ _ h
    simp [specVarint] at h
  | cons c rest ih =>
    intro gi v r res hgi hres h
    simp only [specVarint] at h
    by_cases hc : 63 ≤ c ∧ c ≤ 126
    · rw [if_pos hc] at h
      have hbyte : c - 63 = (((c - 63).toNat : Nat) : Int) := by omega
      have hgle : 5 * gi ≤ 25 := by omega
      have hand : jsAnd (c - 63) 31 = (((c - 63).toNat % 32 : Nat) : Int) :=
        jsAnd_byte31 (c - 63) (by omega) (by omega)
      have hshl : jsShl (((c - 63).toNat % 32 : Nat) : Int) (5 * gi)
          = (((c - 63).toNat % 32 * 2 ^ (5 * gi) : Nat) : Int) :=
        jsShl_small _ _ (by omega) hgle
      have hor : jsOr ((res : Nat) : Int)
            (((c - 63).toNat % 32 * 2 ^ (5 * gi) : Nat) : Int)
          = ((res + (c - 63).toNat % 32 * 2 ^ (5 * gi) : Nat) : Int) :=
        jsOr_acc res _ _ hres (by omega) hgle
      by_cases hcont : 32 ≤ c - 63
      · rw [if_pos hcont] at h
        by_cases hgi5 : 5 ≤ gi
        · rw [if_pos hgi5] at h
          exact absurd h (by simp)
        · rw [if_neg hgi5] at h
          cases hrec : specVarint rest (gi + 1) with
          | none =>
            rw [hrec] at h
            exact absurd h (by simp)
          | some p =>
            obtain ⟨v2, r2⟩ := p
            rw [hrec] at h
            simp only [Option.some.injEq, Prod.mk.injEq] at h
            obtain ⟨hv, hr⟩ := h
            subst hr
            have hres2 : res + (c - 63).toNat % 32 * 2 ^ (5 * gi) < 2 ^ (5 * (gi + 1)) := by
              have hp : (c - 63).toNat % 32 ≤ 31 := by omega
              have hmul : (c - 63).toNat % 32 * 2 ^ (5 * gi) ≤ 31 * 2 ^ (5 * gi) :=
                Nat.mul_le_mul_right _ hp
              have hpow : 2 ^ (5 * (gi + 1)) = 32 * 2 ^ (5 * gi) := by
                rw [show 5 * (gi + 1) = 5 * gi + 5 by omega, pow_add]
                ring
              omega
            obtain ⟨n2, hrv2, hdrop2, hn2pos, hn2le⟩ :=
              ih (gi + 1) v2 r2 (res + (c - 63).toNat % 32 * 2 ^ (5 * gi))
                (by omega) hres2 hrec
            refine ⟨n2 + 1, ?_, ?_, by omega, by simpa using hn2le⟩
            · show readVarint (c :: rest) (5 * gi) ((res : Nat) : Int) = _
              simp only [readVarint]
              rw [hand, hshl, hor, if_pos hcont]
              rw [show 5 * gi + 5 = 5 * (gi + 1) by omega, hrv2]
              have hval : res + (c - 63).toNat % 32 * 2 ^ (5 * gi)
                  + v2 * 2 ^ (5 * (gi + 1))
                  = res + v * 2 ^ (5 * gi) := by
                rw [← hv]
                have hpow : 2 ^ (5 * (gi + 1)) = 2 ^ (5 * gi) * 32 := by
                  rw [show 5 * (gi + 1) = 5 * gi + 5 by omega, pow_add]
                  ring
                rw [hpow]
                have hpm : (c - 63).toNat % 32 = (c - 63 - 32).toNat := by omega
                rw [hpm]
                ring
              rw [hval]
            · show (c :: rest).drop (n2 + 1) = r2
              rw [List.drop_succ_cons, hdrop2]
      · rw [if_neg hcont] at h
        simp only [Option.some.injEq, Prod.mk.injEq] at h
        obtain ⟨hv, hr⟩ := h
        subst hr
        refine ⟨1, ?_, rfl, le_refl 1, by simp⟩
        show readVarint (c :: rest) (5 * gi) ((res : Nat) : Int) = _
        simp only [readVarint]
        rw [hand, hshl, hor, if_neg hcont]
        have hpm : (c - 63).toNat % 32 = v := by omega
        rw [hpm]
    · rw [if_neg hc] at h
      exact absurd h (by simp)

/-- The decode loop on an empty remainder. -/
theorem decodeLoop_nil (fuel : Nat) (lat lng : Int) : decodeLoop fuel [] lat lng = [] := by
  cases fuel <;> rfl

/-- The source decode loop agrees with the specification decode loop on
well-formed input, for any sufficient fuel. -/
theorem decodeLoop_spec : ∀ (fuel2 : Nat) (l : List Int) (lat lng : Int)
    (out : List (Int × Int)) (fuel : Nat),
    l.length ≤ fuel → specDecodeLoop fuel2 l lat lng = some out →
    decodeLoop fuel l lat lng = out := by
  intro fuel2
  induction fuel2 with
  | zero =>
    intro l lat lng out fuel hf h
    simp only [specDecodeLoop] at h
    by_cases hl : l = []
    · rw [if_pos hl] at h
      simp only [Option.some.injEq] at h
      subst hl
      rw [decodeLoop_nil]
      exact h
    · rw [if_neg hl] at h
      exact absurd h (by simp)
  | succ f2 ih =>
    intro l lat lng out fuel hf h
    cases l with
    | nil =>
      simp only [specDecodeLoop, Option.some.injEq] at h
      rw [decodeLoop_nil]
      exact h
    | cons c tl =>
      simp only [specDecodeLoop] at h
      cases h1 : specVarint (c :: tl) 0 with
      | none =>
        rw [h1] at h
        simp at h
      | some p1 =>
        obtain ⟨v1, r1⟩ := p1
        rw [h1] at h
        dsimp only at h
        cases h2 : specVarint r1 0 with
        | none =>
          rw [h2] at h
          simp at h
        | some p2 =>
          obtain ⟨v2, r2⟩ := p2
          rw [h2] at h
          dsimp only at h
          cases h3 : specDecodeLoop f2 r2 (lat + specZigzag v1) (lng + specZigzag v2) with
          | none =>
            rw [h3] at h
            simp at h
          | some ps =>
            rw [h3] at h
            dsimp only at h
            simp only [Option.some.injEq] at h
            obtain ⟨n1, hrv1, hdrop1, hn1pos, hn1le⟩ :=
              readVarint_spec (c :: tl) 0 v1 r1 0 (by omega) (by norm_num) h1
            obtain ⟨n2, hrv2, hdrop2, hn2pos, hn2le⟩ :=
              readVarint_spec r1 0 v2 r2 0 (by omega) (by norm_num) h2
            have hb1 : v1 < 1073741824 :=
              lt_of_lt_of_le (specVarint_bound _ 0 v1 r1 (by omega) h1) (by norm_num)
            have hb2 : v2 < 1073741824 :=
              lt_of_lt_of_le (specVarint_bound _ 0 v2 r2 (by omega) h2) (by norm_num)
            simp only [mul_zero, pow_zero, mul_one, Nat.zero_add, Nat.cast_zero]
              at hrv1 hrv2
            have hlen1 : r1.length = (c :: tl).length - n1 := by
              rw [← hdrop1, List.length_drop]
            have hlen2 : r2.length = r1.length - n2 := by
              rw [← hdrop2, List.length_drop]
            cases fuel with
            | zero =>
              exfalso
              simp at hf
            | succ f =>
              simp only [decodeLoop]
              rw [hrv1]
              dsimp only
              rw [zigzag_decode v1 hb1, hdrop1, hrv2]
              dsimp only
              rw [zigzag_decode v2 hb2, hdrop2]
              rw [ih r2 _ _ ps f (by omega) h3]
              exact h

/-- C8: on every well-formed encoded polyline string — one that parses as
successive zig-zag base-32 group runs for `(dlat, dlng)` pairs —
`decodePolyline` returns exactly the cumulative coordinate sequence of the
specified encoding (5-bit groups, continuation bit `0x20`, offset 63,
zig-zag sign, scale `1e5`, accumulated from `(0,0)`), in input order; and
decoding is deterministic (two runs yield identical output, trivially so
in this pure embedding). -/
theorem decodePolyline_matches_spec_encoding (e : String) (out : List (Int × Int))
    (h : specDecodePolyline e = some out) :
    decodePolyline e
      = out.map (fun p => ((p.1 : Real) / 100000, (p.2 : Real) / 100000))
    ∧ decodePolyline e = decodePolyline e := by
  refine ⟨?_, rfl⟩
  rw [decodePolyline, decodePolylineInt,
    decodeLoop_spec (codesOf e).length (codesOf e) 0 0 out (codesOf e).length le_rfl h]

/-- Witness for C8 on a concrete well-formed string. -/
theorem decodePolyline_matches_spec_encoding_witness :
    specDecodePolyline "?gEgE?" = some [(0, 100), (100, 100)]
    ∧ decodePolyline "?gEgE?"
        = ([((0 : Int), (100 : Int)), (100, 100)]).map
            (fun p => ((p.1 : Real) / 100000, (p.2 : Real) / 100000)) :=
  ⟨by decide, (decodePolyline_matches_spec_encoding "?gEgE?" _ (by decide)).1⟩

/-! ## C4: reconciliation of the registry by an idle `sync` -/

noncomputable section

open scoped Classical

/-- Whether a call is any marker removal. -/
def isRemove : WCall → Bool
  | WCall.removeMarker _ => true
  | _ => false

/-- `regGet` at a cons cell. -/
theorem regGet_cons (q : String × Entry) (reg : List (String × Entry)) (x : String) :
    regGet (q :: reg) x = if q.1 = x then some q.2 else regGet reg x := by
  by_cases h : q.1 = x <;> simp [regGet, List.find?_cons, h]

/-- A key is absent exactly when the find fails. -/
theorem regGet_eq_none_iff (reg : List (String × Entry)) (x : String) :
    regGet reg x = none ↔ (reg.find? fun p => p.1 = x) = none := by
  simp [regGet]

/-- Replacing under key `id` does not affect lookups of other keys. -/
theorem regGet_map_replace_other (id : String) (e : Entry) (x : String) (hx : x ≠ id) :
    ∀ reg : List (String × Entry),
      regGet (reg.map fun p => if p.1 = id then (id, e) else p) x = regGet reg x := by
  intro reg
  induction reg with
  | nil => rfl
  | cons q rest ih =>
    simp only [List.map_cons]
    by_cases hq : q.1 = id
    · rw [if_pos hq, regGet_cons, regGet_cons, if_neg (fun h => hx h.symm),
        if_neg (by rw [hq]; exact fun h => hx h.symm)]
      exact ih
    · rw [if_neg hq, regGet_cons, regGet_cons]
      by_cases hqx : q.1 = x
      · rw [if_pos hqx, if_pos hqx]
      · rw [if_neg hqx, if_neg hqx]
        exact ih

/-- Replacing under a present key makes lookups of that key return the new
entry. -/
theorem regGet_map_replace_self (id : String) (e : Entry) :
    ∀ reg : List (String × Entry),
      (reg.find? fun p => p.1 = id).isSome →
      regGet (reg.map fun p => if p.1 = id then (id, e) else p) id = some e := by
  intro reg
  induction reg with
  | nil => intro h; simp [List.find?] at h
  | cons q rest ih =>
    intro h
    simp only [List.map_cons]
    by_cases hq : q.1 = id
    · rw [if_pos hq, regGet_cons, if_pos rfl]
    · rw [if_neg hq, regGet_cons, if_neg hq]
      apply ih
      simp only [List.find?_cons, decide_eq_false hq] at h
      exact h

/-- Appending a fresh key: lookups of that key find it, others pass. -/
theorem regGet_append_single (id : String) (e : Entry) :
    ∀ reg : List (String × Entry), regGet reg id = none →
      ∀ x, regGet (reg ++ [(id, e)]) x = if x = id then some e else regGet reg x := by
  intro reg
  induction reg with
  | nil =>
    intro _ x
    simp only [List.nil_append, regGet_cons]
    by_cases h : x = id
    · rw [if_pos h, if_pos h.symm]
    · rw [if_neg h, if_neg (fun hc => h hc.symm)]
  | cons q rest ih =>
    intro hnone x
    rw [regGet_cons] at hnone
    have hq : ¬ q.1 = id := by
      intro hc
      rw [if_pos hc] at hnone
      exact Option.some_ne_none _ hnone
    rw [if_neg hq] at hnone
    simp only [List.cons_append]
    rw [regGet_cons, regGet_cons]
    by_cases hqx : q.1 = x
    · rw [if_pos hqx, if_pos hqx, if_neg (by rw [← hqx]; exact fun hc => hq hc)]
    · rw [if_neg hqx, if_neg hqx]
      exact ih hnone x

/-- Full description of `regSet` lookups. -/
theorem regGet_regSet (reg : List (String × Entry)) (id : String) (e : Entry) (x : String) :
    regGet (regSet reg id e) x = if x = id then some e else regGet reg x := by
  rw [regSet]
  by_cases hfind : (reg.find? fun p => p.1 = id).isSome
  · rw [if_pos hfind]
    by_cases hx : x = id
    · rw [if_pos hx, hx]
      exact regGet_map_replace_self id e reg hfind
    · rw [if_neg hx]
      exact regGet_map_replace_other id e x hx reg
  · rw [if_neg hfind]
    apply regGet_append_single
    rw [regGet_eq_none_iff]
    exact Option.not_isSome_iff_eq_none.mp hfind

/-- `regSet` keeps every pair stored under a different key. -/
theorem mem_regSet_of_mem (reg : List (String × Entry)) (id : String) (e : Entry)
    (p : String × Entry) (hp : p ∈ reg) (hne : p.1 ≠ id) : p ∈ regSet reg id e := by
  rw [regSet]
  by_cases hfind : (reg.find? fun q => q.1 = id).isSome
  · rw [if_pos hfind]
    have : (if p.1 = id then (id, e) else p) = p := if_neg hne
    rw [← this]
    exact List.mem_map_of_mem _ hp
  · rw [if_neg hfind]
    exact List.mem_append_left _ hp

/-- `syncVehicle` on a fix with no registry entry. -/
theorem syncVehicle_new (routes : String → Option RouteData)
    (reg : List (String × Entry)) (v : Vehicle) (h : regGet reg v.id = none) :
    syncVehicle routes reg v
      = (regSet reg v.id (newEntry v (nextStopNameFor routes v)),
          [WCall.place v.id v.latitude v.longitude]) := by
  simp [syncVehicle, h]

/-- `syncVehicle` on a fix with an existing registry entry. -/
theorem syncVehicle_existing (routes : String → Option RouteData)
    (reg : List (String × Entry)) (v : Vehicle) (ex : Entry)
    (h : regGet reg v.id = some ex) :
    (syncVehicle routes reg v).1
        = regSet reg v.id (updatedEntry ex v (nextStopNameFor routes v))
    ∧ ((syncVehicle routes reg v).2 = [WCall.setPopup v.id]
        ∨ (syncVehicle routes reg v).2
            = [WCall.updateEl v.id v.bearing v.lineColor v.lineName,
                WCall.setPopup v.id]) := by
  simp only [syncVehicle, h]
  constructor
  · trivial
  · split
    · left; rfl
    · right; rfl

/-- Every call emitted by `syncVehicle` refers to the processed vehicle. -/
theorem syncVehicle_call_id (routes : String → Option RouteData)
    (reg : List (String × Entry)) (v : Vehicle) :
    ∀ c ∈ (syncVehicle routes reg v).2, wcallId c = v.id := by
  intro c hc
  cases h : regGet reg v.id with
  | none =>
    rw [syncVehicle_new routes reg v h] at hc
    simp only [List.mem_singleton] at hc
    subst hc
    rfl
  | some ex =>
    rcases (syncVehicle_existing routes reg v ex h).2 with h2 | h2 <;> rw [h2] at hc
    · simp only [List.mem_singleton] at hc
      subst hc
      rfl
    · rcases List.mem_cons.mp hc with h3 | h3
      · subst h3; rfl
      · simp only [List.mem_singleton] at h3
        subst h3
        rfl

/-- `syncVehicle` never emits a removal. -/
theorem syncVehicle_no_remove (routes : String → Option RouteData)
    (reg : List (String × Entry)) (v : Vehicle) :
    ∀ c ∈ (syncVehicle routes reg v).2, isRemove c = false := by
  intro c hc
  cases h : regGet reg v.id with
  | none =>
    rw [syncVehicle_new routes reg v h] at hc
    simp only [List.mem_singleton] at hc
    subst hc
    rfl
  | some ex =>
    rcases (syncVehicle_existing routes reg v ex h).2 with h2 | h2 <;> rw [h2] at hc
    · simp only [List.mem_singleton] at hc
      subst hc
      rfl
    · rcases List.mem_cons.mp hc with h3 | h3
      · subst h3; rfl
      · simp only [List.mem_singleton] at h3
        subst h3
        rfl

/-- The number of placements emitted by `syncVehicle` for identifier `x`:
one when the fix was new and is `x`, zero otherwise. -/
theorem syncVehicle_place_count (routes : String → Option RouteData)
    (reg : List (String × Entry)) (v : Vehicle) (x : String) :
    ((syncVehicle routes reg v).2).countP (isPlaceFor x)
      = if regGet reg v.id = none ∧ v.id = x then 1 else 0 := by
  cases h : regGet reg v.id with
  | none =>
    rw [syncVehicle_new routes reg v h]
    by_cases hx : v.id = x
    · rw [if_pos ⟨rfl, hx⟩]
      simp [List.countP_cons, isPlaceFor, hx]
    · rw [if_neg (fun hc => hx hc.2)]
      simp [List.countP_cons, isPlaceFor, hx]
  | some ex =>
    rw [if_neg (fun hc => Option.some_ne_none ex hc.1)]
    rcases (syncVehicle_existing routes reg v ex h).2 with h2 | h2 <;> rw [h2] <;>
      simp [List.countP_cons, isPlaceFor]

/-- `syncVehicle` does not change lookups of other identifiers. -/
theorem syncVehicle_regGet_other (routes : String → Option RouteData)
    (reg : List (String × Entry)) (v : Vehicle) (x : String) (hx : x ≠ v.id) :
    regGet (syncVehicle routes reg v).1 x = regGet reg x := by
  cases h : regGet reg v.id with
  | none =>
    rw [syncVehicle_new routes reg v h]
    exact (regGet_regSet reg v.id _ x).trans (if_neg hx)
  | some ex =>
    rw [(syncVehicle_existing routes reg v ex h).1]
    exact (regGet_regSet reg v.id _ x).trans (if_neg hx)

/-- `syncVehicle` keeps pairs stored under other identifiers. -/
theorem syncVehicle_mem_other (routes : String → Option RouteData)
    (reg : List (String × Entry)) (v : Vehicle) (p : String × Entry)
    (hp : p ∈ reg) (hne : p.1 ≠ v.id) : p ∈ (syncVehicle routes reg v).1 := by
  cases h : regGet reg v.id with
  | none =>
    rw [syncVehicle_new routes reg v h]
    exact mem_regSet_of_mem reg v.id _ p hp hne
  | some ex =>
    rw [(syncVehicle_existing routes reg v ex h).1]
    exact mem_regSet_of_mem reg v.id _ p hp hne

/-- The vehicle loop never emits a removal. -/
theorem syncLoop_no_remove (routes : String → Option RouteData) :
    ∀ (vs : List Vehicle) (reg : List (String × Entry)),
      ∀ c ∈ (syncLoop routes vs reg).2, isRemove c = false := by
  intro vs
  induction vs with
  | nil =>
    intro reg c hc
    simp [syncLoop] at hc
  | cons w rest ih =>
    intro reg c hc
    simp only [syncLoop, List.mem_append] at hc
    rcases hc with hc | hc
    · exact syncVehicle_no_remove routes reg w c hc
    · exact ih _ c hc

/-- Identifiers not occurring in the snapshot are untouched by the loop:
lookups are preserved, stored pairs are preserved, and no placement call
for them is emitted. -/
theorem syncLoop_untouched (routes : String → Option RouteData) :
    ∀ (vs : List Vehicle) (reg : List (String × Entry)) (x : String),
      x ∉ vs.map (fun v => v.id) →
      regGet (syncLoop routes vs reg).1 x = regGet reg x
      ∧ ((syncLoop routes vs reg).2).countP (isPlaceFor x) = 0
      ∧ ∀ p : String × Entry, p ∈ reg → p.1 = x → p ∈ (syncLoop routes vs reg).1 := by
  intro vs
  induction vs with
  | nil =>
    intro reg x _
    exact ⟨rfl, rfl, fun p hp _ => hp⟩
  | cons w rest ih =>
    intro reg x hx
    simp only [List.map_cons, List.mem_cons, not_or] at hx
    obtain ⟨hxw, hxrest⟩ := hx
    have hrec := ih (syncVehicle routes reg w).1 x (by simpa using hxrest)
    refine ⟨?_, ?_, ?_⟩
    · show regGet (syncLoop routes rest (syncVehicle routes reg w).1).1 x = regGet reg x
      rw [hrec.1]
      exact syncVehicle_regGet_other routes reg w x hxw
    · show ((syncVehicle routes reg w).2
          ++ (syncLoop routes rest (syncVehicle routes reg w).1).2).countP
            (isPlaceFor x) = 0
      rw [List.countP_append, hrec.2.1, syncVehicle_place_count]
      rw [if_neg (fun hc => hxw hc.2.symm)]
    · intro p hp hpx
      show p ∈ (syncLoop routes rest (syncVehicle routes reg w).1).1
      refine hrec.2.2 p ?_ hpx
      exact syncVehicle_mem_other routes reg w p hp (by rw [hpx]; exact hxw)

/-- Reconciliation of one snapshot vehicle by the loop, under distinct
snapshot identifiers: a new fix creates its entry and places exactly one
marker; an existing fix retargets its entry and places nothing. -/
theorem syncLoop_mem (routes : String → Option RouteData) :
    ∀ (vs : List Vehicle) (reg : List (String × Entry)),
      (vs.map (fun v => v.id)).Nodup →
      ∀ v ∈ vs,
        (regGet reg v.id = none →
          regGet (syncLoop routes vs reg).1 v.id
              = some (newEntry v (nextStopNameFor routes v))
          ∧ ((syncLoop routes vs reg).2).countP (isPlaceFor v.id) = 1)
        ∧ (∀ ex, regGet reg v.id = some ex →
          regGet (syncLoop routes vs reg).1 v.id
              = some (updatedEntry ex v (nextStopNameFor routes v))
          ∧ ((syncLoop routes vs reg).2).countP (isPlaceFor v.id) = 0) := by
  intro vs
  induction vs with
  | nil =>
    intro reg _ v hv
    simp at hv
  | cons w rest ih =>
    intro reg hnd v hv
    have hndrest : (rest.map fun v => v.id).Nodup := by
      simp only [List.map_cons, List.nodup_cons] at hnd
      exact hnd.2
    have hwnotin : w.id ∉ rest.map fun v => v.id := by
      simp only [List.map_cons, List.nodup_cons] at hnd
      exact hnd.1
    rcases List.mem_cons.mp hv with hvw | hvrest
    · subst hvw
      have huntouched := syncLoop_untouched routes rest (syncVehicle routes reg v).1
        v.id hwnotin
      simp only [syncLoop]
      constructor
      · intro hnone
        rw [syncVehicle_new routes reg v hnone]
        constructor
        · show regGet (syncLoop routes rest
              (regSet reg v.id (newEntry v (nextStopNameFor routes v)))).1 v.id = _
          have h2 := syncLoop_untouched routes rest
            (regSet reg v.id (newEntry v (nextStopNameFor routes v))) v.id hwnotin
          rw [h2.1, regGet_regSet, if_pos rfl]
        · show ([WCall.place v.id v.latitude v.longitude]
              ++ (syncLoop routes rest _).2).countP (isPlaceFor v.id) = 1
          rw [List.countP_append]
          have h2 := syncLoop_untouched routes rest
            (regSet reg v.id (newEntry v (nextStopNameFor routes v))) v.id hwnotin
          rw [h2.2.1]
          simp [List.countP_cons, isPlaceFor]
      · intro ex hex
        have hsv := syncVehicle_existing routes reg v ex hex
        constructor
        · show regGet (syncLoop routes rest (syncVehicle routes reg v).1).1 v.id = _
          rw [huntouched.1, hsv.1, regGet_regSet, if_pos rfl]
        · show ((syncVehicle routes reg v).2
              ++ (syncLoop routes rest (syncVehicle routes reg v).1).2).countP
                (isPlaceFor v.id) = 0
          rw [List.countP_append, huntouched.2.1, syncVehicle_place_count]
          rw [if_neg (fun hc => by rw [hex] at hc; exact Option.some_ne_none ex hc.1)]
    · have hvid : v.id ∈ rest.map fun u => u.id := List.mem_map_of_mem _ hvrest
      have hne : v.id ≠ w.id := fun hc => hwnotin (hc ▸ hvid)
      have hih := ih (syncVehicle routes reg w).1 hndrest v hvrest
      have hpres : regGet (syncVehicle routes reg w).1 v.id = regGet reg v.id :=
        syncVehicle_regGet_other routes reg w v.id hne
      simp only [syncLoop]
      constructor
      · intro hnone
        have h1 := hih.1 (hpres.trans hnone)
        constructor
        · exact h1.1
        · show ((syncVehicle routes reg w).2
              ++ (syncLoop routes rest (syncVehicle routes reg w).1).2).countP
                (isPlaceFor v.id) = 1
          rw [List.countP_append, h1.2, syncVehicle_place_count]
          rw [if_neg (fun hc => hne hc.2.symm)]
      · intro ex hex
        have h1 := hih.2 ex (hpres.trans hex)
        constructor
        · exact h1.1
        · show ((syncVehicle routes reg w).2
              ++ (syncLoop routes rest (syncVehicle routes reg w).1).2).countP
                (isPlaceFor v.id) = 0
          rw [List.countP_append, h1.2, syncVehicle_place_count]
          rw [if_neg (fun hc => hne hc.2.symm)]

/-- Lookups in the filtered registry: kept for retained identifiers,
gone for removed ones. -/
theorem regGet_filter (ids : List String) :
    ∀ (reg : List (String × Entry)) (x : String),
      regGet (reg.filter fun p => decide (p.1 ∈ ids)) x
        = if x ∈ ids then regGet reg x else none := by
  intro reg
  induction reg with
  | nil =>
    intro x
    by_cases hx : x ∈ ids <;> simp [regGet, hx]
  | cons q rest ih =>
    intro x
    simp only [List.filter_cons]
    by_cases hq : q.1 ∈ ids
    · rw [if_pos (by simp [hq]), regGet_cons]
      by_cases hqx : q.1 = x
      · rw [if_pos hqx, if_pos (hqx ▸ hq), regGet_cons, if_pos hqx]
      · rw [if_neg hqx, ih x, regGet_cons]
        by_cases hx : x ∈ ids
        · rw [if_pos hx, if_pos hx, if_neg hqx]
        · rw [if_neg hx, if_neg hx]
    · rw [if_neg (by simp [hq]), ih x, regGet_cons]
      by_cases hx : x ∈ ids
      · rw [if_pos hx, if_pos hx, if_neg (fun hc : q.1 = x => hq (hc ▸ hx))]
      · rw [if_neg hx, if_neg hx]

/-- The registry part of `removePass` is the filter of retained keys. -/
theorem removePass_fst (reg : List (String × Entry)) (ids : List String) :
    (removePass reg ids).1 = reg.filter fun p => decide (p.1 ∈ ids) := rfl

/-- A stale stored pair gets its removal call. -/
theorem removePass_remove_mem (reg : List (String × Entry)) (ids : List String)
    (p : String × Entry) (hp : p ∈ reg) (hnot : p.1 ∉ ids) :
    WCall.removeMarker p.1 ∈ (removePass reg ids).2 := by
  simp only [removePass]
  exact List.mem_map_of_mem _ (List.mem_filter.mpr ⟨hp, by simp [hnot]⟩)

/-- No removal call is emitted for a retained identifier. -/
theorem removePass_no_remove_of_mem (reg : List (String × Entry)) (ids : List String)
    (x : String) (hx : x ∈ ids) :
    WCall.removeMarker x ∉ (removePass reg ids).2 := by
  simp only [removePass]
  intro hmem
  obtain ⟨p, hpmem, hpeq⟩ := List.mem_map.mp hmem
  have hpx : p.1 = x := by
    simpa using hpeq
  have hpf := (List.mem_filter.mp hpmem).2
  simp only [decide_eq_true_eq] at hpf
  exact hpf (hpx ▸ hx)

/-- The removal pass emits no placement. -/
theorem removePass_place_count (reg : List (String × Entry)) (ids : List String)
    (x : String) :
    ((removePass reg ids).2).countP (isPlaceFor x) = 0 := by
  simp only [removePass]
  rw [List.countP_eq_zero]
  intro c hc
  obtain ⟨p, _, hpeq⟩ := List.mem_map.mp hc
  rw [← hpeq]
  simp [isPlaceFor]

/-- C4: an idle `sync` with distinct snapshot identifiers reconciles the
registry: a fix without an entry creates one whose displayed, source and
destination coordinates all equal the fix coordinate and causes exactly
one placement; a fix with an existing entry retargets it (source set to
the currently displayed coordinate, destination to the fix coordinate)
with no placement; every stored entry whose identifier is absent from the
snapshot gets a removal call and disappears from the registry; and
entries of present identifiers get no removal call and remain present. -/
theorem sync_idle_reconciles_registry
    (routes : String → Option RouteData) (s : LayerState) (vehicles : List Vehicle)
    (hm : s.hasMap = true) (hb : s.mapBusy = false)
    (hnd : (vehicles.map fun v => v.id).Nodup) :
    (∀ v ∈ vehicles, regGet s.registry v.id = none →
      regGet ((sync routes s vehicles).1).registry v.id
          = some (newEntry v (nextStopNameFor routes v))
      ∧ (newEntry v (nextStopNameFor routes v)).lat = v.latitude
      ∧ (newEntry v (nextStopNameFor routes v)).srcLat = v.latitude
      ∧ (newEntry v (nextStopNameFor routes v)).dstLat = v.latitude
      ∧ (newEntry v (nextStopNameFor routes v)).lng = v.longitude
      ∧ (newEntry v (nextStopNameFor routes v)).srcLng = v.longitude
      ∧ (newEntry v (nextStopNameFor routes v)).dstLng = v.longitude
      ∧ ((sync routes s vehicles).2).countP (isPlaceFor v.id) = 1)
    ∧ (∀ v ∈ vehicles, ∀ ex, regGet s.registry v.id = some ex →
      regGet ((sync routes s vehicles).1).registry v.id
          = some (updatedEntry ex v (nextStopNameFor routes v))
      ∧ (updatedEntry ex v (nextStopNameFor routes v)).srcLat = ex.lat
      ∧ (updatedEntry ex v (nextStopNameFor routes v)).srcLng = ex.lng
      ∧ (updatedEntry ex v (nextStopNameFor routes v)).dstLat = v.latitude
      ∧ (updatedEntry ex v (nextStopNameFor routes v)).dstLng = v.longitude
      ∧ ((sync routes s vehicles).2).countP (isPlaceFor v.id) = 0)
    ∧ (∀ p ∈ s.registry, p.1 ∉ vehicles.map (fun v => v.id) →
      WCall.removeMarker p.1 ∈ (sync routes s vehicles).2
      ∧ regGet ((sync routes s vehicles).1).registry p.1 = none)
    ∧ (∀ v ∈ vehicles,
      WCall.removeMarker v.id ∉ (sync routes s vehicles).2
      ∧ regGet ((sync routes s vehicles).1).registry v.id ≠ none) := by
  have hs1 : ((sync routes s vehicles).1).registry
      = (removePass (syncLoop routes vehicles s.registry).1
          (vehicles.map fun v => v.id)).1 := by
    simp [sync, hm, hb]
  have hs2 : (sync routes s vehicles).2
      = (syncLoop routes vehicles s.registry).2
        ++ (removePass (syncLoop routes vehicles s.registry).1
            (vehicles.map fun v => v.id)).2 := by
    simp [sync, hm, hb]
  have hregfinal : ∀ x, regGet ((sync routes s vehicles).1).registry x
      = if x ∈ vehicles.map (fun v => v.id)
        then regGet (syncLoop routes vehicles s.registry).1 x else none := by
    intro x
    rw [hs1, removePass_fst, regGet_filter]
  refine ⟨?_, ?_, ?_, ?_⟩
  · intro v hv hnone
    have h1 := (syncLoop_mem routes vehicles s.registry hnd v hv).1 hnone
    refine ⟨?_, rfl, rfl, rfl, rfl, rfl, rfl, ?_⟩
    · rw [hregfinal, if_pos (List.mem_map_of_mem _ hv), h1.1]
    · rw [hs2, List.countP_append, h1.2, removePass_place_count]
  · intro v hv ex hex
    have h1 := (syncLoop_mem routes vehicles s.registry hnd v hv).2 ex hex
    refine ⟨?_, rfl, rfl, rfl, rfl, ?_⟩
    · rw [hregfinal, if_pos (List.mem_map_of_mem _ hv), h1.1]
    · rw [hs2, List.countP_append, h1.2, removePass_place_count]
  · intro p hp hnot
    have hunt := syncLoop_untouched routes vehicles s.registry p.1 hnot
    have hpin : p ∈ (syncLoop routes vehicles s.registry).1 := hunt.2.2 p hp rfl
    constructor
    · rw [hs2]
      exact List.mem_append_right _
        (removePass_remove_mem _ _ p hpin hnot)
    · rw [hregfinal, if_neg hnot]
  · intro v hv
    have hvid : v.id ∈ vehicles.map fun u => u.id := List.mem_map_of_mem _ hv
    constructor
    · rw [hs2]
      intro hmem
      rcases List.mem_append.mp hmem with hmem | hmem
      · have := syncLoop_no_remove routes vehicles s.registry _ hmem
        simp [isRemove] at this
      · exact removePass_no_remove_of_mem _ _ v.id hvid hmem
    · rw [hregfinal, if_pos hvid]
      cases hex : regGet s.registry v.id with
      | none =>
        rw [((syncLoop_mem routes vehicles s.registry hnd v hv).1 hex).1]
        exact Option.some_ne_none _
      | some ex =>
        rw [((syncLoop_mem routes vehicles s.registry hnd v hv).2 ex hex).1]
        exact Option.some_ne_none _

/-- Concrete vehicle with an existing registry entry. -/
noncomputable def v1C4 : Vehicle := ⟨"veh1", 1, 1, 0, "ff0000", "C3", "Perrache", "outward", "C3"⟩

/-- Concrete vehicle new to the registry. -/
noncomputable def v2C4 : Vehicle := ⟨"veh2", 2, 2, 0, "00ff00", "C1", "Vaulx", "outward", "C1"⟩

/-- The stored entry for `veh1` before the sync. -/
noncomputable def exC4 : Entry := ⟨0, 0, 0, 0, 0, 0, 0, "ff0000", "C3", "outward", none⟩

/-- A stale stored entry whose identifier is absent from the snapshot. -/
noncomputable def staleC4 : Entry := ⟨5, 5, 5, 5, 5, 5, 0, "0000ff", "C9", "inward", none⟩

/-- Idle layer state holding the `veh1` and `veh3` entries. -/
noncomputable def s4W : LayerState :=
  ⟨true, false, none, [("veh1", exC4), ("veh3", staleC4)], false⟩

/-- C4 witness: on the concrete idle state, syncing the snapshot
`[veh1, veh2]` creates and places `veh2`, retargets `veh1` without a
placement, removes `veh3`, and never removes `veh1`. -/
theorem sync_idle_reconciles_registry_witness :
    regGet ((sync (fun _ => none) s4W [v1C4, v2C4]).1).registry "veh2"
        = some (newEntry v2C4 (nextStopNameFor (fun _ => none) v2C4))
    ∧ ((sync (fun _ => none) s4W [v1C4, v2C4]).2).countP (isPlaceFor "veh2") = 1
    ∧ regGet ((sync (fun _ => none) s4W [v1C4, v2C4]).1).registry "veh1"
        = some (updatedEntry exC4 v1C4 (nextStopNameFor (fun _ => none) v1C4))
    ∧ ((sync (fun _ => none) s4W [v1C4, v2C4]).2).countP (isPlaceFor "veh1") = 0
    ∧ WCall.removeMarker "veh3" ∈ (sync (fun _ => none) s4W [v1C4, v2C4]).2
    ∧ regGet ((sync (fun _ => none) s4W [v1C4, v2C4]).1).registry "veh3" = none
    ∧ WCall.removeMarker "veh1" ∉ (sync (fun _ => none) s4W [v1C4, v2C4]).2 := by
  have H := sync_idle_reconciles_registry (fun _ => none) s4W [v1C4, v2C4]
    rfl rfl (by simp [v1C4, v2C4])
  have hv1 : v1C4 ∈ [v1C4, v2C4] := by simp
  have hv2 : v2C4 ∈ [v1C4, v2C4] := by simp
  have hid1 : v1C4.id = "veh1" := rfl
  have hid2 : v2C4.id = "veh2" := rfl
  have hex : regGet s4W.registry v1C4.id = some exC4 := rfl
  have hnone : regGet s4W.registry v2C4.id = none := rfl
  have hnew := H.1 v2C4 hv2 hnone
  have hold := H.2.1 v1C4 hv1 exC4 hex
  have hstale := H.2.2.1 ("veh3", staleC4) (by simp [s4W])
    (by simp [v1C4, v2C4])
  have hpres := H.2.2.2 v1C4 hv1
  exact ⟨hid2 ▸ hnew.1, hid2 ▸ hnew.2.2.2.2.2.2.2,
    hid1 ▸ hold.1, hid1 ▸ hold.2.2.2.2.2,
    hstale.1, hstale.2, hid1 ▸ hpres.1⟩
